import Mathlib

/-!
Verification of the VerdictSwarm consensus/convergence subsystem.

This file shallowly embeds the parts of the source repository that the
checked properties talk about:

* `src/src/scoring_engine.py` — the weighted scoring/aggregation engine;
* `src/src/services/convergence.py` — the critique-and-converge engine;
* `src/api/services/event_bus.py` — the append-only scan event bus;
* `src/api/routers/stream_scan.py` — debate triggering and the
  module-level cross-agent challenge dedup set.

Python floats are modelled by exact rationals (`ℚ`); Python's `round`
(banker's rounding / round-half-to-even) is modelled by `roundHalfEvenQ`
below.  The one genuinely irrational computation — the population
standard deviation used by `confidence_score` — is modelled over `ℝ`
with `Real.sqrt`.  Python dicts are modelled as insertion-ordered
association lists.
-/

namespace VerdictSwarm

/-! ## Rounding helpers

Python's built-in `round(x, 2)` rounds half to even.  `roundHalfEvenQ`
is that rounding on exact rationals; `roundHalfEvenR` is the same on
reals (used only where the source computes a square root). -/

/-- Round-half-to-even on rationals (Python `round` semantics). -/
def roundHalfEvenQ (x : ℚ) : ℤ :=
  if Int.fract x < 1/2 then ⌊x⌋
  else if 1/2 < Int.fract x then ⌊x⌋ + 1
  else if ⌊x⌋ % 2 = 0 then ⌊x⌋ else ⌊x⌋ + 1

/-- Python `round(x, 2)` on rationals. -/
def round2Q (x : ℚ) : ℚ := (roundHalfEvenQ (100 * x) : ℚ) / 100

/-- Round-half-to-even on reals. -/
noncomputable def roundHalfEvenR (x : ℝ) : ℤ :=
  if Int.fract x < 1/2 then ⌊x⌋
  else if 1/2 < Int.fract x then ⌊x⌋ + 1
  else if ⌊x⌋ % 2 = 0 then ⌊x⌋ else ⌊x⌋ + 1

/-- Python `round(x, 2)` on reals. -/
noncomputable def round2R (x : ℝ) : ℝ := (roundHalfEvenR (100 * x) : ℝ) / 100

/-! ## Scoring engine data model (`src/src/scoring_engine.py`) -/

/-- `Sentiment = Literal["bullish", "bearish", "neutral"]`. -/
inductive Sentiment
  | bullish
  | bearish
  | neutral
deriving DecidableEq

/-- `Category = Literal["Technical", "Safety", "Tokenomics", "Social", "Macro"]`. -/
inductive Category
  | Technical
  | Safety
  | Tokenomics
  | Social
  | Macro
deriving DecidableEq

/-- `AgentVerdict` dataclass: score, sentiment, reasoning, optional
category, confidence (dataclass default 1.0). -/
structure AgentVerdict where
  score : ℚ
  sentiment : Sentiment
  reasoning : String
  category : Option Category
  confidence : ℚ
deriving DecidableEq

/-- A verdict supplied to the engine: either a structured `AgentVerdict`
object or a loosely-typed mapping (Python dict).  The mapping carries
the optional keys `_parse_verdict` reads (`score`, `sentiment`,
`reasoning`, `category`) plus an optional `confidence` key, which — as
the source shows — `_parse_verdict` never reads. -/
inductive VerdictPayload
  | structured (v : AgentVerdict)
  | mapping (score : Option ℚ) (sentiment : Option Sentiment) (reasoning : String)
      (category : Option Category) (confidence : Option ℚ)
deriving DecidableEq

/-- `missing_category_policy`. -/
inductive MissingPolicy
  | renormalize
  | neutral
deriving DecidableEq

/-- `DEFAULT_CATEGORY_WEIGHTS = {Technical: .25, Safety: .25, Tokenomics: .20,
Social: .15, Macro: .15}` in dict insertion order. -/
def DEFAULT_CATEGORY_WEIGHTS : List (Category × ℚ) :=
  [(.Technical, 1/4), (.Safety, 1/4), (.Tokenomics, 1/5), (.Social, 3/20), (.Macro, 3/20)]

/-- The engine's default agent → category map (`DevilsAdvocate`
intentionally unmapped). -/
def DEFAULT_AGENT_CATEGORY_MAP : List (String × Category) :=
  [("TechnicianBot", .Technical), ("SecurityBot", .Safety), ("TokenomicsBot", .Tokenomics),
   ("SocialBot", .Social), ("MacroBot", .Macro)]

/-- `ScoringEngine` configuration (weight table in dict insertion order,
agent→category map, missing-category policy). -/
structure ScoringEngine where
  weights : List (Category × ℚ)
  agentCategoryMap : List (String × Category)
  missingPolicy : MissingPolicy

/-- The default engine (`ScoringEngine()` with default arguments). -/
def defaultEngine : ScoringEngine :=
  { weights := DEFAULT_CATEGORY_WEIGHTS
    agentCategoryMap := DEFAULT_AGENT_CATEGORY_MAP
    missingPolicy := .renormalize }

/-- `ScoringEngine.__init__` + `_validate_weights`: raises `ValueError`
on a negative weight, then on a non-positive weight total (an empty
table has total 0 and hence also raises). -/
def mkScoringEngine (weights : List (Category × ℚ)) (agentMap : List (String × Category))
    (policy : MissingPolicy) : Except String ScoringEngine :=
  if weights.any (fun p => decide (p.2 < 0)) then
    .error "Category weight must be >= 0"
  else if (weights.map Prod.snd).sum ≤ 0 then
    .error "Sum of category weights must be > 0"
  else
    .ok { weights := weights, agentCategoryMap := agentMap, missingPolicy := policy }

/-- `ScoringEngine._clamp_score`. -/
def clampScore (s : ℚ) : ℚ :=
  if s < 0 then 0 else if s > 10 then 10 else s

/-- `ScoringEngine._sentiment_from_score`: ≥ 6.5 bullish, ≤ 3.5 bearish,
otherwise neutral. -/
def sentimentFromScore (s : ℚ) : Sentiment :=
  if 13/2 ≤ s then .bullish
  else if s ≤ 7/2 then .bearish
  else .neutral

/-- `ScoringEngine.agent_category` — dict `.get` on the agent map. -/
def ScoringEngine.agentCategory (e : ScoringEngine) (agent : String) : Option Category :=
  (e.agentCategoryMap.find? (fun p => decide (p.1 = agent))).map Prod.snd

/-- `cat in self._weights` — membership among the weight-table keys. -/
def ScoringEngine.hasCategory (e : ScoringEngine) (c : Category) : Bool :=
  e.weights.any (fun p => decide (p.1 = c))

/-- `ScoringEngine._parse_verdict`.  Note two source quirks embedded
faithfully: a mapping payload's `confidence` key is never read (the
`AgentVerdict(...)` constructor call omits it, so the dataclass default
1.0 applies), and the clamping re-construction also omits `confidence`
(resetting it to 1.0 whenever the score was out of range). -/
def ScoringEngine.parseVerdict (e : ScoringEngine) (payload : VerdictPayload) : AgentVerdict :=
  let v : AgentVerdict :=
    match payload with
    | .structured v => v
    | .mapping score sentiment reasoning category _confidence =>
        { score := score.getD 5
          sentiment := sentiment.getD .neutral
          reasoning := reasoning.trim
          category := match category with
            | some c => if e.hasCategory c then some c else none
            | none => none
          confidence := 1 }
  let clamped := clampScore v.score
  if clamped ≠ v.score then
    { score := clamped, sentiment := v.sentiment, reasoning := v.reasoning,
      category := v.category, confidence := 1 }
  else v

/-- Modelled from the spec (§3 and §9): the spec's "single parsing
boundary" normalizes both payload shapes into one canonical verdict,
*including* a mapping's `confidence` key (`float in [0,1], default
1.0`), and clamps out-of-range scores without touching the other
fields.  Used only to compare against the source's `_parse_verdict`. -/
def parseVerdictSpec (e : ScoringEngine) (payload : VerdictPayload) : AgentVerdict :=
  match payload with
  | .structured v => { v with score := clampScore v.score }
  | .mapping score sentiment reasoning category confidence =>
      { score := clampScore (score.getD 5)
        sentiment := sentiment.getD .neutral
        reasoning := reasoning.trim
        category := match category with
          | some c => if e.hasCategory c then some c else none
          | none => none
        confidence := confidence.getD 1 }

/-- The spec-side parsing loop (see `parseVerdictSpec`). -/
def parseAllSpec (e : ScoringEngine) (verdicts : List (String × VerdictPayload)) :
    List (String × AgentVerdict) :=
  verdicts.map (fun p => (p.1, parseVerdictSpec e p.2))

/-- `category = v.category or self.agent_category(agent)`. -/
def ScoringEngine.effectiveCategory (e : ScoringEngine) (agent : String) (v : AgentVerdict) :
    Option Category :=
  match v.category with
  | some c => some c
  | none => e.agentCategory agent

/-- The parsing loop shared by `_group_verdicts`, `dissenting_agents`
and `confidence_score`. -/
def ScoringEngine.parseAll (e : ScoringEngine) (verdicts : List (String × VerdictPayload)) :
    List (String × AgentVerdict) :=
  verdicts.map (fun p => (p.1, e.parseVerdict p.2))

/-- `by_category[c]` in `_group_verdicts`: verdicts whose effective
category is the weighted category `c`, in input order. -/
def ScoringEngine.catItems (e : ScoringEngine) (parsed : List (String × AgentVerdict))
    (c : Category) : List (String × AgentVerdict) :=
  if e.hasCategory c then
    parsed.filter (fun p => decide (e.effectiveCategory p.1 p.2 = some c))
  else []

/-- `unscored_agents` in `_group_verdicts`. -/
def ScoringEngine.unscoredAgents (e : ScoringEngine) (parsed : List (String × AgentVerdict)) :
    List (String × AgentVerdict) :=
  parsed.filter (fun p =>
    match e.effectiveCategory p.1 p.2 with
    | none => true
    | some c => !e.hasCategory c)

/-- The `confident_items` filter of `_compute_category_aggregates`:
items whose (parsed) confidence exceeds 0.1. -/
def qualifiedItems (items : List (String × AgentVerdict)) : List (String × AgentVerdict) :=
  items.filter (fun p => decide (p.2.confidence > 1/10))

/-- The arithmetic mean of the items' scores. -/
def meanScores (items : List (String × AgentVerdict)) : ℚ :=
  (items.map (fun p => p.2.score)).sum / items.length

/-- The per-category average in `_compute_category_aggregates`: average
the scores of items with confidence > 0.1, falling back to all items
when none qualify. -/
def aggregateItems (items : List (String × AgentVerdict)) : ℚ :=
  let use := if (qualifiedItems items).isEmpty then items else qualifiedItems items
  meanScores use

/-- `_compute_category_aggregates` over the grouped verdicts, in weight
dict order, skipping empty categories. -/
def ScoringEngine.categoryAggregates (e : ScoringEngine)
    (parsed : List (String × AgentVerdict)) : List (Category × ℚ) :=
  e.weights.filterMap (fun p =>
    let items := e.catItems parsed p.1
    if items.isEmpty then none else some (p.1, aggregateItems items))

/-- `ScoringEngine._scorable_agent_verdicts`: verdicts whose effective
category is a weighted category. -/
def ScoringEngine.scorableAgentVerdicts (e : ScoringEngine)
    (parsed : List (String × AgentVerdict)) : List (String × AgentVerdict) :=
  parsed.filter (fun p =>
    match e.effectiveCategory p.1 p.2 with
    | none => false
    | some c => e.hasCategory c)

/-- In `score()`, the "neutral" policy adds score-5 entries for the
missing weighted categories after aggregation. -/
def ScoringEngine.filledCategoryScores (e : ScoringEngine)
    (parsed : List (String × AgentVerdict)) : List (Category × ℚ) :=
  let base := e.categoryAggregates parsed
  match e.missingPolicy with
  | .neutral =>
      base ++ e.weights.filterMap (fun p =>
        if base.any (fun q => decide (q.1 = p.1)) then none else some (p.1, 5))
  | .renormalize => base

/-- `ScoringEngine._compute_used_weights`. -/
def ScoringEngine.computeUsedWeights (e : ScoringEngine)
    (categoryScores : List (Category × ℚ)) : Except String (List (Category × ℚ)) :=
  match e.missingPolicy with
  | .neutral => .ok e.weights
  | .renormalize =>
      let present := e.weights.filter (fun p => categoryScores.any (fun q => decide (q.1 = p.1)))
      if present.isEmpty then .error "No scorable categories present in verdicts"
      else
        let total := (present.map Prod.snd).sum
        if total ≤ 0 then .error "Total weight of present categories must be > 0"
        else .ok (present.map (fun p => (p.1, p.2 / total)))

/-- Population variance of a list of rationals (the square of the
source's population standard deviation). -/
def popVariance (scores : List ℚ) : ℚ :=
  let n : ℚ := scores.length
  let mean := scores.sum / n
  (scores.map (fun s => (s - mean) ^ 2)).sum / n

/-- The `majority_fraction` of `confidence_score`: the largest sentiment
tally among the derived sentiments of the scores, over the number of
scores. -/
def majorityFraction (scores : List ℚ) : ℚ :=
  let derived := scores.map sentimentFromScore
  let majorityCount : ℕ :=
    max (derived.countP (fun x => decide (x = .bullish)))
      (max (derived.countP (fun x => decide (x = .bearish)))
        (derived.countP (fun x => decide (x = .neutral))))
  (majorityCount : ℚ) / (scores.length : ℚ)

/-- The `variance_factor` of `confidence_score`:
`max(0, 1 - popStdDev(scores)/5)`. -/
noncomputable def varianceFactor (scores : List ℚ) : ℝ :=
  max 0 (1 - Real.sqrt ((popVariance scores : ℚ) : ℝ) / 5)

/-- The body of `confidence_score` on a non-empty score list:
`round(max(0, min(1, majority_fraction * variance_factor)), 2)`. -/
noncomputable def confidenceFromScores (scores : List ℚ) : ℝ :=
  round2R (max 0 (min 1 ((majorityFraction scores : ℝ) * varianceFactor scores)))

/-- `ScoringEngine.confidence_score`: majority-sentiment fraction times
`max(0, 1 - popStdDev/5)`, clamped to [0,1] and rounded to 2 decimals.
Real-valued because of the square root. -/
noncomputable def ScoringEngine.confidenceScore (e : ScoringEngine)
    (parsed : List (String × AgentVerdict)) : ℝ :=
  let scored := e.scorableAgentVerdicts parsed
  if scored.isEmpty then 0
  else confidenceFromScores (scored.map (fun p => p.2.score))

/-- `ScoringResult` (derived artifact).  The source's `confidence` field
is exactly `self.confidence_score(parsed)` — irrational-valued, modelled
by the standalone `ScoringEngine.confidenceScore` above, as in the
source where `confidence_score` is a public method `score` calls.  The
presentational `summary` string is not modelled. -/
structure ScoringResult where
  final_score : ℚ
  final_sentiment : Sentiment
  category_scores : List (Category × ℚ)
  category_sentiments : List (Category × Sentiment)
  used_weights : List (Category × ℚ)
deriving DecidableEq

/-- Dict lookup `category_scores[cat]` (total, with a default the source
never hits because `used_weights` keys are always present keys). -/
def lookupCat (l : List (Category × ℚ)) (c : Category) : Option ℚ :=
  (l.find? (fun p => decide (p.1 = c))).map Prod.snd

/-- `ScoringEngine.score(verdicts, final_floor=...)`. -/
def ScoringEngine.score (e : ScoringEngine) (verdicts : List (String × VerdictPayload))
    (finalFloor : Option ℚ) : Except String ScoringResult :=
  let parsed := e.parseAll verdicts
  let catScores := e.filledCategoryScores parsed
  let catSentiments := catScores.map (fun p => (p.1, sentimentFromScore p.2))
  match e.computeUsedWeights catScores with
  | .error msg => .error msg
  | .ok usedWeights =>
      let base := (usedWeights.map (fun p => p.2 * (lookupCat catScores p.1).getD 0)).sum
      let floored := match finalFloor with
        | none => base
        | some f => max base f
      let finalScore := round2Q (clampScore floored)
      .ok { final_score := finalScore
            final_sentiment := sentimentFromScore finalScore
            category_scores := catScores
            category_sentiments := catSentiments
            used_weights := usedWeights }

/-! ## Convergence engine (`src/src/services/convergence.py`)

External `chat_json` calls are modelled by an oracle environment
`AIEnv`; every embedded function returns its result *paired with the
number of external AI calls it performed*, so that "issues no external
calls" is a provable statement.  `hasClient` models whether
`_get_client()` returns a client (`GEMINI_API_KEY` configured). -/

/-- The duck-typed verdict view used by the convergence engine
(`getattr(v, "score"/"reasoning"/"category")`). -/
structure ConvVerdict where
  score : ℚ
  reasoning : String
  category : String
deriving DecidableEq

/-- `AgentCritique` dataclass (the `raw` JSON echo is presentational and
not modelled). -/
structure AgentCritique where
  agent_name : String
  critiques : List (String × String)
deriving DecidableEq

/-- `ScoreUpdate` dataclass. -/
structure ScoreUpdate where
  agent_name : String
  original_score : ℚ
  updated_score : ℚ
  explanation : String
deriving DecidableEq

/-- `ConvergenceRound` dataclass.  The source stores
`std_dev = sqrt(variance)`; we store the variance (`std_dev_sq`) so the
record stays computable — `converged` is `std_dev < CONVERGENCE_THRESHOLD`,
embedded as the equivalent `std_dev_sq < CONVERGENCE_THRESHOLD ^ 2`
(see `stdDev_lt_iff`). -/
structure ConvergenceRound where
  round_num : ℕ
  updates : List ScoreUpdate
  std_dev_sq : ℚ
  converged : Bool
deriving DecidableEq

/-- `ModeratorVerdict` dataclass. -/
structure ModeratorVerdict where
  final_score : ℚ
  explanation : String
  strongest_arguments : String
deriving DecidableEq

/-- `ConvergenceResult` dataclass. -/
structure ConvergenceResult where
  critiques : List AgentCritique
  rounds : List ConvergenceRound
  final_scores : List (String × ℚ)
  converged : Bool
  total_rounds : ℕ
  synthesis : String
  averaged_score : Option ℚ
  moderator_verdict : Option ModeratorVerdict
deriving DecidableEq

/-- `CONVERGENCE_THRESHOLD = 1.0`. -/
def CONVERGENCE_THRESHOLD : ℚ := 1

/-- `MAX_CONVERGENCE_ROUNDS = 2`. -/
def MAX_CONVERGENCE_ROUNDS : ℕ := 2

/-- The square of `_std_dev` (population standard deviation, 0 for
fewer than two values).  The source's `_std_dev` is
`Real.sqrt ∘ stdDevSq` — see `stdDev`. -/
def stdDevSq (values : List ℚ) : ℚ :=
  if values.length < 2 then 0 else popVariance values

/-- `_std_dev`: population standard deviation. -/
noncomputable def stdDev (values : List ℚ) : ℝ :=
  Real.sqrt ((stdDevSq values : ℚ) : ℝ)

/-- Oracle environment for the convergence engine's external AI calls.
`hasClient` is whether `_get_client()` succeeds; `critiqueResp a` is the
parsed `critiques` dict of agent `a`'s critique call (`none` = the call
raised or returned a non-dict); `updateResp r a` is the parsed
`(updated_score?, explanation)` of agent `a`'s round-`r` update call
(`none` = the call raised); `moderatorResp` is the parsed
`(final_score?, explanation, strongest_arguments)` of the moderator call
(`none` = the call raised). -/
structure AIEnv where
  hasClient : Bool
  critiqueResp : String → Option (List (String × String))
  updateResp : ℕ → String → Option (Option ℚ × String)
  moderatorResp : Option (Option ℚ × String × String)

/-- `generate_critique`: one AI call; on success, self-critiques are
filtered out.  Second component counts external calls. -/
def generate_critique (env : AIEnv) (agentName : String) : Option AgentCritique × ℕ :=
  (match env.critiqueResp agentName with
   | none => none
   | some m => some ⟨agentName, m.filter (fun kv => !decide (kv.1 = agentName))⟩, 1)

/-- `run_attack_round`: every non-`DevilsAdvocate` agent issues one
critique call; failed calls contribute nothing.  Returns the critiques
plus the number of external calls. -/
def run_attack_round (env : AIEnv) (verdicts : List (String × ConvVerdict)) :
    List AgentCritique × ℕ :=
  if !env.hasClient then ([], 0)
  else
    let eligible := verdicts.filter (fun p => !decide (p.1 = "DevilsAdvocate"))
    (eligible.filterMap (fun p => (generate_critique env p.1).1), eligible.length)

/-- `generate_score_update`: with no critiques received, returns a
keep-score update *without* any AI call; otherwise one AI call whose
parsed score is defaulted to the current score and clamped to [0, 10]. -/
def generate_score_update (env : AIEnv) (roundNum : ℕ) (agentName : String)
    (currentScore : ℚ) (critiquesReceived : List (String × String)) : Option ScoreUpdate × ℕ :=
  if critiquesReceived.isEmpty then
    (some ⟨agentName, currentScore, currentScore, "No critiques received — maintaining score."⟩, 0)
  else
    match env.updateResp roundNum agentName with
    | none => (none, 1)
    | some r =>
        (some ⟨agentName, currentScore, max 0 (min 10 (r.1.getD currentScore)), r.2⟩, 1)

/-- The `critiques_for` map of `run_convergence_round`: critiques
addressed to `target`, in critique-list order. -/
def critiquesFor (critiques : List AgentCritique) (target : String) : List (String × String) :=
  critiques.flatMap (fun c =>
    (c.critiques.filter (fun kv => decide (kv.1 = target))).map (fun kv => (c.agent_name, kv.2)))

/-- Dict lookup on a string-keyed association list. -/
def lookupStr (l : List (String × ℚ)) (k : String) : Option ℚ :=
  (l.find? (fun p => decide (p.1 = k))).map Prod.snd

/-- Python dict assignment `d[k] = x` on an association list: replace
in place if the key exists, else append. -/
def setKey (l : List (String × ℚ)) (k : String) (x : ℚ) : List (String × ℚ) :=
  if l.any (fun p => decide (p.1 = k)) then
    l.map (fun p => if p.1 = k then (k, x) else p)
  else l ++ [(k, x)]

/-- The `current_scores` update loop after a round. -/
def applyUpdates (cur : List (String × ℚ)) (updates : List ScoreUpdate) : List (String × ℚ) :=
  updates.foldl (fun acc u => setKey acc u.agent_name u.updated_score) cur

/-- `run_convergence_round`: each non-`DevilsAdvocate` agent produces an
update (keeping its score with a failure note when its AI call fails);
`converged` is `σ < CONVERGENCE_THRESHOLD` on the updated scores,
embedded as variance < threshold². -/
def run_convergence_round (env : AIEnv) (verdicts : List (String × ConvVerdict))
    (currentScores : List (String × ℚ)) (critiques : List AgentCritique) (roundNum : ℕ) :
    Option ConvergenceRound × ℕ :=
  if !env.hasClient then (none, 0)
  else
    let eligible := verdicts.filter (fun p => !decide (p.1 = "DevilsAdvocate"))
    let pairs := eligible.map (fun p =>
      let score := (lookupStr currentScores p.1).getD p.2.score
      let r := generate_score_update env roundNum p.1 score (critiquesFor critiques p.1)
      ((match r.1 with
        | some u => u
        | none => (⟨p.1, score, score, "(AI call failed — maintaining score)"⟩ : ScoreUpdate)),
       r.2))
    let updates := pairs.map Prod.fst
    let calls := (pairs.map Prod.snd).sum
    let sigmaSq := stdDevSq (updates.map ScoreUpdate.updated_score)
    (some ⟨roundNum, updates, sigmaSq, decide (sigmaSq < CONVERGENCE_THRESHOLD ^ 2)⟩, calls)

/-- `generate_moderator_verdict`: one AI call; on any failure the
averaged current/final scores are used.  The (unused for behaviour)
critiques argument only feeds the prompt text and is not needed here. -/
def generate_moderator_verdict (env : AIEnv) (verdicts : List (String × ConvVerdict))
    (rounds : List ConvergenceRound) : ModeratorVerdict × ℕ :=
  let scoreable := verdicts.filter (fun p => !decide (p.1 = "DevilsAdvocate"))
  let base := scoreable.map (fun p => (p.1, p.2.score))
  let fallbackScores := match rounds.getLast? with
    | none => base
    | some r => applyUpdates base r.updates
  let avgFallback :=
    if fallbackScores.isEmpty then 0
    else (fallbackScores.map Prod.snd).sum / fallbackScores.length
  match env.moderatorResp with
  | none => (⟨avgFallback, "Moderator fallback: averaged agent scores", ""⟩, 1)
  | some r =>
      let fs := max 0 (min 10 (r.1.getD avgFallback))
      let ex := if r.2.1.trim = "" then "Moderator fallback: averaged agent scores" else r.2.1.trim
      (⟨fs, ex, r.2.2.trim⟩, 1)

/-- The convergence loop of `run_full_convergence` (`for round_num in
range(1, max_rounds+1)`), with early exit on a failed round or on
convergence.  Returns the recorded rounds, the final `current_scores`,
and the number of external calls. -/
def convLoop (env : AIEnv) (verdicts : List (String × ConvVerdict))
    (critiques : List AgentCritique) :
    ℕ → ℕ → List (String × ℚ) → List ConvergenceRound × List (String × ℚ) × ℕ
  | 0, _, cur => ([], cur, 0)
  | fuel + 1, roundNum, cur =>
    let r := run_convergence_round env verdicts cur critiques roundNum
    match r.1 with
    | none => ([], cur, r.2)
    | some round =>
      let cur' := applyUpdates cur round.updates
      if round.converged then ([round], cur', r.2)
      else
        let rest := convLoop env verdicts critiques fuel (roundNum + 1) cur'
        (round :: rest.1, rest.2.1, r.2 + rest.2.2)

/-- `run_full_convergence`.  The source's short-circuit condition is
`_std_dev(scores) < threshold`; since a square root is nonnegative this
is equivalent to `0 < threshold ∧ variance < threshold²`
(`stdDev_lt_iff`), which is how it is embedded. -/
def run_full_convergence (env : AIEnv) (verdicts : List (String × ConvVerdict))
    (maxRounds : ℕ) (threshold : ℚ) : Option ConvergenceResult × ℕ :=
  if !env.hasClient then (none, 0)
  else
    let scoreable := verdicts.filter (fun p => !decide (p.1 = "DevilsAdvocate"))
    if scoreable.length < 3 then (none, 0)
    else
      let initialScores := scoreable.map (fun p => p.2.score)
      if 0 < threshold ∧ stdDevSq initialScores < threshold ^ 2 then
        let finalScores := scoreable.map (fun p => (p.1, p.2.score))
        (some { critiques := []
                rounds := []
                final_scores := finalScores
                converged := true
                total_rounds := 0
                synthesis := "Agents already in consensus — no debate needed."
                averaged_score :=
                  if finalScores.isEmpty then none
                  else some ((finalScores.map Prod.snd).sum / finalScores.length)
                moderator_verdict := none }, 0)
      else
        let atk := run_attack_round env verdicts
        if atk.1.isEmpty then (none, atk.2)
        else
          let current0 := scoreable.map (fun p => (p.1, p.2.score))
          let loopRes := convLoop env verdicts atk.1 maxRounds 1 current0
          let rounds := loopRes.1
          let finalScores := loopRes.2.1
          let converged := match rounds.getLast? with
            | some r => r.converged
            | none => false
          if converged then
            (some { critiques := atk.1
                    rounds := rounds
                    final_scores := finalScores
                    converged := true
                    total_rounds := rounds.length
                    synthesis := ""
                    averaged_score :=
                      if finalScores.isEmpty then none
                      else some ((finalScores.map Prod.snd).sum / finalScores.length)
                    moderator_verdict := none }, atk.2 + loopRes.2.2)
          else
            let mv := generate_moderator_verdict env verdicts rounds
            (some { critiques := atk.1
                    rounds := rounds
                    final_scores := finalScores
                    converged := false
                    total_rounds := rounds.length
                    synthesis := ""
                    averaged_score := none
                    moderator_verdict := some mv.1 }, atk.2 + loopRes.2.2 + mv.2)

/-- The caller in `stream_scan.py` (lines 1028, 1059–1069): converged
scores are applied to the verdict map only when a result was returned
with `total_rounds > 0`; existing keys are updated in place. -/
def applyConvergedScores (res : Option ConvergenceResult)
    (verdicts : List (String × ConvVerdict)) : List (String × ConvVerdict) :=
  match res with
  | none => verdicts
  | some cr =>
    if cr.total_rounds > 0 then
      cr.final_scores.foldl (fun vs p =>
        vs.map (fun q => if q.1 = p.1 then (q.1, { q.2 with score := p.2 }) else q)) verdicts
    else verdicts

/-! ## Event bus (`src/api/services/event_bus.py`)

The lock and the synchronous subscriber fan-out are concurrency
mechanics with no effect on the stored log; the pure state is the
append-only event list. -/

/-- `ScanEvent` (`src/api/models/scan_events.py`): the `data` payload is
opaque here. -/
structure ScanEvent where
  version : ℕ
  type : String
  scan_id : String
  timestamp : ℤ
  data : String
deriving DecidableEq

/-- `ScanEventBus` pure state: the stored event list. -/
structure ScanEventBus where
  events : List ScanEvent
deriving DecidableEq

/-- A fresh bus (`__init__`). -/
def ScanEventBus.emptyBus : ScanEventBus := ⟨[]⟩

/-- `emit`: append the event to the log. -/
def ScanEventBus.emit (b : ScanEventBus) (e : ScanEvent) : ScanEventBus :=
  ⟨b.events ++ [e]⟩

/-- `replay(after_timestamp)`: the full log, or only events with
`timestamp > after_timestamp`. -/
def ScanEventBus.replay (b : ScanEventBus) (after : Option ℤ) : List ScanEvent :=
  match after with
  | none => b.events
  | some t => b.events.filter (fun e => decide (t < e.timestamp))

/-- `event_count`. -/
def ScanEventBus.eventCount (b : ScanEventBus) : ℕ := b.events.length

/-! ## Debate triggering (`src/api/routers/stream_scan.py`) -/

/-- `DEBATE_THRESHOLD = 2.5`. -/
def DEBATE_THRESHOLD : ℚ := 5/2

/-- `CROSS_CATEGORY_THRESHOLD = 2.0`. -/
def CROSS_CATEGORY_THRESHOLD : ℚ := 2

/-- The verdict view `_check_and_run_debates` reads: a score and an
optional category attribute. -/
structure ScanVerdict where
  score : ℚ
  category : Option Category
deriving DecidableEq

/-- `cat = getattr(v, "category", None) or scanner.engine.agent_category(bot_name)`. -/
def debateCategoryOf (e : ScoringEngine) (name : String) (v : ScanVerdict) : Option Category :=
  match v.category with
  | some c => some c
  | none => e.agentCategory name

/-- `by_category.setdefault(cat, []).append(...)`: insertion-ordered
keys, per-key insertion-ordered entries. -/
def addToCategory (acc : List (Category × List (String × ℚ))) (c : Category)
    (entry : String × ℚ) : List (Category × List (String × ℚ)) :=
  if acc.any (fun p => decide (p.1 = c)) then
    acc.map (fun p => if p.1 = c then (p.1, p.2 ++ [entry]) else p)
  else acc ++ [(c, [entry])]

/-- The `by_category` grouping loop of `_check_and_run_debates`. -/
def debateByCategory (e : ScoringEngine) (verdicts : List (String × ScanVerdict)) :
    List (Category × List (String × ℚ)) :=
  verdicts.foldl (fun acc p =>
    match debateCategoryOf e p.1 p.2 with
    | none => acc
    | some c => addToCategory acc c (p.1, p.2.score)) []

/-- Python `max(scores, key=lambda x: x[1])`: first element of maximal
score. -/
def pyMaxBy (hd : String × ℚ) (tl : List (String × ℚ)) : String × ℚ :=
  tl.foldl (fun b x => if b.2 < x.2 then x else b) hd

/-- Python `min(scores, key=lambda x: x[1])`: first element of minimal
score. -/
def pyMinBy (hd : String × ℚ) (tl : List (String × ℚ)) : String × ℚ :=
  tl.foldl (fun b x => if x.2 < b.2 then x else b) hd

/-- One intra-category debate as run by `_check_and_run_debates` /
`_run_debate_rounds` (participants only; the round texts are
presentational). -/
structure DebateTrigger where
  category : Category
  agents : List String
  highest : String × ℚ
  lowest : String × ℚ
deriving DecidableEq

/-- The per-category body of `_check_and_run_debates`: with ≥ 2 scores
and `max − min ≥ DEBATE_THRESHOLD`, debate between the highest- and
lowest-scoring agents. -/
def triggerFor (c : Category) (scores : List (String × ℚ)) : Option DebateTrigger :=
  match scores with
  | [] => none
  | hd :: tl =>
    if scores.length < 2 then none
    else
      let maxS := (tl.map Prod.snd).foldl max hd.2
      let minS := (tl.map Prod.snd).foldl min hd.2
      if DEBATE_THRESHOLD ≤ maxS - minS then
        some { category := c, agents := scores.map Prod.fst,
               highest := pyMaxBy hd tl, lowest := pyMinBy hd tl }
      else none

/-- `_check_and_run_debates`: one debate per qualifying category, in
grouping order. -/
def checkAndRunDebates (e : ScoringEngine) (verdicts : List (String × ScanVerdict)) :
    List DebateTrigger :=
  (debateByCategory e verdicts).filterMap (fun p => triggerFor p.1 p.2)

/-! ## Cross-agent challenge dedup (`stream_scan.py` lines 395–444, 889)

`_emitted_challenge_pairs` is a *module-level* set: `scanStart` models
the `.clear()` at line 889 (run at the start of every scan), and
`botComplete` models one `_emit_cross_agent_challenges` call.  The
module state is shared by every scan in the process. -/

/-- `tuple(sorted([a, b]))`. -/
def pairKey (a b : String) : String × String :=
  if a ≤ b then (a, b) else (b, a)

/-- The loop body of `_emit_cross_agent_challenges` for one prior bot:
skip the new bot itself, skip already-emitted pairs, skip pairs with
score difference below `DEBATE_THRESHOLD`, otherwise record and emit
the pair. -/
def challengeStep (newBot : String) (newScore : ℚ)
    (acc : List (String × String) × List (String × String)) (p : String × ℚ) :
    List (String × String) × List (String × String) :=
  if p.1 = newBot then acc
  else
    let key := pairKey newBot p.1
    if acc.1.any (fun q => decide (q = key)) then acc
    else if |newScore - p.2| < DEBATE_THRESHOLD then acc
    else (acc.1 ++ [key], acc.2 ++ [key])

/-- `_emit_cross_agent_challenges` over the dedup set.  Returns the
updated set and the emitted pairs. -/
def emitChallenges (emitted : List (String × String)) (newBot : String) (newScore : ℚ)
    (prior : List (String × ℚ)) : List (String × String) × List (String × String) :=
  prior.foldl (challengeStep newBot newScore) (emitted, [])

/-- Module-level operations: a scan starting (which clears the shared
set) or a bot completing (which emits challenges against the prior
verdicts of its scan). -/
inductive ScanOp
  | scanStart (scanId : String)
  | botComplete (scanId : String) (newBot : String) (newScore : ℚ) (prior : List (String × ℚ))
deriving DecidableEq

/-- One step of the *source* semantics: the dedup set is module state. -/
def moduleStep (state : List (String × String)) (op : ScanOp) :
    List (String × String) × List (String × (String × String)) :=
  match op with
  | .scanStart _ => ([], [])
  | .botComplete sid nb ns prior =>
      let r := emitChallenges state nb ns prior
      (r.1, r.2.map (fun k => (sid, k)))

/-- Accumulating step for a run of module-level operations. -/
def moduleFoldStep (acc : List (String × String) × List (String × (String × String)))
    (op : ScanOp) : List (String × String) × List (String × (String × String)) :=
  let r := moduleStep acc.1 op
  (r.1, acc.2 ++ r.2)

/-- Run a sequence of (possibly interleaved) scan operations under the
source semantics: one shared module-level dedup set.  Returns the final
set and all emitted challenge events tagged with their scan id. -/
def runModuleOps (ops : List ScanOp) : List (String × String) × List (String × (String × String)) :=
  ops.foldl moduleFoldStep ([], [])

/-- Per-scan dedup-set store for the spec-side semantics. -/
def setScanSet (st : List (String × List (String × String))) (sid : String)
    (s : List (String × String)) : List (String × List (String × String)) :=
  if st.any (fun p => decide (p.1 = sid)) then
    st.map (fun p => if p.1 = sid then (p.1, s) else p)
  else st ++ [(sid, s)]

/-- Per-scan dedup-set read for the spec-side semantics. -/
def getScanSet (st : List (String × List (String × String))) (sid : String) :
    List (String × String) :=
  ((st.find? (fun p => decide (p.1 = sid))).map Prod.snd).getD []

/-- Modelled from the spec: "the debate-pair dedup set must be
constructed fresh per scan ... not kept as shared mutable module state".
Each scan id owns its own dedup set; a scan start resets only that
scan's set. -/
def runPerScanOps (ops : List ScanOp) :
    List (String × List (String × String)) × List (String × (String × String)) :=
  ops.foldl (fun acc op =>
    match op with
    | .scanStart sid => (setScanSet acc.1 sid [], acc.2)
    | .botComplete sid nb ns prior =>
        let r := emitChallenges (getScanSet acc.1 sid) nb ns prior
        (setScanSet acc.1 sid r.1, acc.2 ++ r.2.map (fun k => (sid, k)))) ([], [])

/-! ## Concrete inputs used by the checked properties -/

/-- The spec §8 "confidence formula" scenario: the five mapped
specialists at 7.8/8.6/6.4/5.9/4.8 plus an unmapped `DevilsAdvocate` at
3.2 (`test_example_usage_matches_expected` in
`src/src/test_scoring_engine.py`). -/
def exampleVerdicts : List (String × VerdictPayload) :=
  [("TechnicianBot", .structured ⟨39/5, .bullish, "Uptrend intact", none, 1⟩),
   ("SecurityBot", .structured ⟨43/5, .bullish, "Audits", none, 1⟩),
   ("TokenomicsBot", .structured ⟨32/5, .neutral, "Emissions", none, 1⟩),
   ("SocialBot", .structured ⟨59/10, .neutral, "Engagement", none, 1⟩),
   ("MacroBot", .structured ⟨24/5, .neutral, "Liquidity", none, 1⟩),
   ("DevilsAdvocate", .structured ⟨16/5, .bearish, "Narrative", none, 1⟩)]

/-- A plain-mapping payload carrying a `confidence` key of 0.05 — below
the 0.1 "no signal" cutoff — with score 0 in the Technical category. -/
def mappingLowConfidencePayload : VerdictPayload :=
  .mapping (some 0) none "" (some .Technical) (some (1/20))

/-- Two Technical verdicts: the low-confidence mapping above and a
structured full-confidence verdict of 10. -/
def confidenceShapeVerdicts : List (String × VerdictPayload) :=
  [("AgentA", mappingLowConfidencePayload),
   ("AgentB", .structured ⟨10, .bullish, "", some .Technical, 1⟩)]

/-- The spec §8 debate-boundary scenario's qualifying score list:
agents at 6.0 and 8.6 (spread 2.6). -/
def boundaryScores : List (String × ℚ) := [("A", 6), ("B", 43/5)]

/-- The debate the 6.0/8.6 scenario must trigger. -/
def boundaryTrigger : DebateTrigger :=
  { category := .Technical, agents := ["A", "B"], highest := ("B", 43/5), lowest := ("A", 6) }

/-- An oracle environment with a configured client whose external calls
all fail (every `chat_json` raises). -/
def envNoop : AIEnv :=
  { hasClient := true
    critiqueResp := fun _ => none
    updateResp := fun _ _ => none
    moderatorResp := none }

/-- The spec §8 convergence short-circuit scenario: three agents at
7.0 / 7.2 / 6.8 (σ ≈ 0.16 < 1). -/
def shortCircuitVerdicts : List (String × ConvVerdict) :=
  [("TechnicianBot", ⟨7, "steady", "Technical"⟩),
   ("SecurityBot", ⟨36/5, "clean", "Safety"⟩),
   ("TokenomicsBot", ⟨34/5, "fair", "Tokenomics"⟩)]

/-- Three agents at 1 / 5 / 9 (σ² = 32/3 ≥ 1): convergence must
actually run. -/
def deadlockVerdicts : List (String × ConvVerdict) :=
  [("A", ⟨1, "bear", "Technical"⟩), ("B", ⟨5, "mid", "Safety"⟩), ("C", ⟨9, "bull", "Macro"⟩)]

/-- Two interleaved scans A and B: both start (each `.clear()`ing the
module-level set), then in each scan bot `X` (score 9) completes
against prior verdict `Y` (score 2), a qualifying spread of 7. -/
def interleavedOps : List ScanOp :=
  [.scanStart "A", .scanStart "B",
   .botComplete "A" "X" 9 [("Y", 2)],
   .botComplete "B" "X" 9 [("Y", 2)]]

/-- A two-event bus whose events share the timestamp 5. -/
def tieBus : ScanEventBus :=
  (ScanEventBus.emptyBus.emit ⟨1, "agent:start", "scan1", 5, "d1"⟩).emit
    ⟨1, "agent:score", "scan1", 5, "d2"⟩

/-- A three-event bus with strictly increasing timestamps 1, 2, 3. -/
def triBus : ScanEventBus :=
  ((ScanEventBus.emptyBus.emit ⟨1, "scan:start", "s", 1, "a"⟩).emit
    ⟨1, "agent:start", "s", 2, "b"⟩).emit ⟨1, "agent:score", "s", 3, "c"⟩

/-! ## Theorems -/

theorem sum_map_div (l : List (Category × ℚ)) (t : ℚ) :
    ((l.map (fun p => (p.1, p.2 / t))).map Prod.snd).sum = (l.map Prod.snd).sum / t := by
  induction l with
  | nil => simp
  | cons h tl ih =>
    simp only [List.map_cons, List.sum_cons]
    rw [ih, add_div]

theorem hasCategory_iff (e : ScoringEngine) (c : Category) :
    e.hasCategory c = true ↔ ∃ w, (c, w) ∈ e.weights := by
  simp only [ScoringEngine.hasCategory, List.any_eq_true, decide_eq_true_eq]
  constructor
  · rintro ⟨⟨c', w⟩, hmem, rfl⟩
    exact ⟨w, hmem⟩
  · rintro ⟨w, hmem⟩
    exact ⟨(c, w), hmem, rfl⟩

theorem catItems_ne_nil_iff (e : ScoringEngine) (parsed : List (String × AgentVerdict))
    (c : Category) :
    e.catItems parsed c ≠ [] ↔
      (e.hasCategory c = true ∧ ∃ p ∈ parsed, e.effectiveCategory p.1 p.2 = some c) := by
  by_cases h : e.hasCategory c
  · simp only [ScoringEngine.catItems, h, if_true, true_and]
    rw [ne_eq, List.filter_eq_nil_iff]
    push_neg
    simp
  · simp [ScoringEngine.catItems, h]

theorem aggregates_key_iff (e : ScoringEngine) (parsed : List (String × AgentVerdict))
    (c : Category) :
    (∃ x, (c, x) ∈ e.categoryAggregates parsed) ↔
      (e.hasCategory c = true ∧ ∃ p ∈ parsed, e.effectiveCategory p.1 p.2 = some c) := by
  rw [← catItems_ne_nil_iff]
  simp only [ScoringEngine.categoryAggregates, List.mem_filterMap]
  constructor
  · rintro ⟨x, ⟨c', w⟩, hmem, hf⟩
    by_cases hempty : (e.catItems parsed c').isEmpty
    · simp [hempty] at hf
    · simp only [hempty, Bool.false_eq_true, if_false, Option.some_inj, Prod.mk.injEq] at hf
      obtain ⟨rfl, -⟩ := hf
      exact fun hh => hempty (by simp [hh])
  · intro hne
    refine ⟨aggregateItems (e.catItems parsed c), ?_⟩
    have hne' : (e.catItems parsed c).isEmpty = false := by
      cases hcat : e.catItems parsed c with
      | nil => exact absurd hcat hne
      | cons a l => rfl
    have hkey : e.hasCategory c = true := by
      by_contra hnc
      apply hne
      simp [ScoringEngine.catItems, hnc]
    obtain ⟨w, hw⟩ := (hasCategory_iff e c).mp hkey
    refine ⟨(c, w), hw, ?_⟩
    simp [hne']

theorem any_key_iff (l : List (Category × ℚ)) (c : Category) :
    l.any (fun q => decide (q.1 = c)) = true ↔ ∃ x, (c, x) ∈ l := by
  simp only [List.any_eq_true, decide_eq_true_eq]
  constructor
  · rintro ⟨⟨c', x⟩, hm, rfl⟩
    exact ⟨x, hm⟩
  · rintro ⟨x, hm⟩
    exact ⟨(c, x), hm, rfl⟩

/-- C1: under the `renormalize` missing-category policy, whenever at least one
weighted category is present among the verdicts, the `used_weights` table of the
scoring result has exactly the present weighted categories as its keys and its
values sum to exactly 1 (exact rationals, so within any tolerance). -/
theorem renormalize_used_weights (e : ScoringEngine) (verdicts : List (String × VerdictPayload))
    (r : ScoringResult) (hpol : e.missingPolicy = .renormalize)
    (hok : e.score verdicts none = .ok r) :
    ((r.used_weights.map Prod.snd).sum = 1) ∧
    (∀ c : Category, (∃ w, (c, w) ∈ r.used_weights) ↔
      (e.hasCategory c = true ∧
        ∃ p ∈ e.parseAll verdicts, e.effectiveCategory p.1 p.2 = some c)) := by
  have hfill : e.filledCategoryScores (e.parseAll verdicts)
      = e.categoryAggregates (e.parseAll verdicts) := by
    rw [ScoringEngine.filledCategoryScores, hpol]
  rw [ScoringEngine.score, hfill] at hok
  rw [ScoringEngine.computeUsedWeights, hpol] at hok
  set CS := e.categoryAggregates (e.parseAll verdicts) with hCS
  set present := e.weights.filter (fun p => CS.any (fun q => decide (q.1 = p.1))) with hpres
  by_cases hemp : present.isEmpty
  · simp only [hemp, if_true] at hok
    exact absurd hok (by simp)
  · simp only [hemp, Bool.false_eq_true, if_false] at hok
    by_cases htot : (present.map Prod.snd).sum ≤ 0
    · simp only [htot, if_true] at hok
      exact absurd hok (by simp)
    · simp only [htot, if_false] at hok
      simp only [Except.ok.injEq] at hok
      have huw : r.used_weights =
          present.map (fun p => (p.1, p.2 / (present.map Prod.snd).sum)) := by
        rw [← hok]
      push_neg at htot
      constructor
      · rw [huw, sum_map_div, div_self (ne_of_gt htot)]
      · intro c
        rw [huw]
        constructor
        · rintro ⟨w, hw⟩
          rw [List.mem_map] at hw
          obtain ⟨⟨c', w'⟩, hmem, heq⟩ := hw
          simp only [Prod.mk.injEq] at heq
          obtain ⟨heq1, -⟩ := heq
          rw [heq1] at hmem
          rw [hpres, List.mem_filter] at hmem
          obtain ⟨hwmem, hany⟩ := hmem
          have hkey := (any_key_iff CS c).mp hany
          have := (aggregates_key_iff e (e.parseAll verdicts) c).mp hkey
          exact this
        · rintro ⟨hcat, hex⟩
          have hkey := (aggregates_key_iff e (e.parseAll verdicts) c).mpr ⟨hcat, hex⟩
          obtain ⟨w, hw⟩ := (hasCategory_iff e c).mp hcat
          refine ⟨w / (present.map Prod.snd).sum, ?_⟩
          rw [List.mem_map]
          refine ⟨(c, w), ?_, rfl⟩
          rw [hpres, List.mem_filter]
          exact ⟨hw, (any_key_iff CS c).mpr hkey⟩

set_option maxRecDepth 8000 in
/-- Witness for C1 at the six-verdict example input. -/
theorem renormalize_used_weights_witness :
    defaultEngine.score [("TechnicianBot", .structured ⟨7, .bullish, "", none, 1⟩)] none =
      .ok { final_score := 7, final_sentiment := .bullish,
            category_scores := [(.Technical, 7)],
            category_sentiments := [(.Technical, .bullish)],
            used_weights := [(.Technical, 1)] } ∧
    ((([((Category.Technical : Category), (1:ℚ))].map Prod.snd).sum = 1) ∧
     (∀ c : Category, (∃ w, (c, w) ∈ [((Category.Technical : Category), (1:ℚ))]) ↔
       (defaultEngine.hasCategory c = true ∧
         ∃ p ∈ defaultEngine.parseAll [("TechnicianBot", .structured ⟨7, .bullish, "", none, 1⟩)],
           defaultEngine.effectiveCategory p.1 p.2 = some c))) := by
  have hok : defaultEngine.score [("TechnicianBot", .structured ⟨7, .bullish, "", none, 1⟩)] none =
      .ok { final_score := 7, final_sentiment := .bullish,
            category_scores := [(.Technical, 7)],
            category_sentiments := [(.Technical, .bullish)],
            used_weights := [(.Technical, 1)] } := by
    have hparsed : defaultEngine.parseAll
        [("TechnicianBot", .structured ⟨7, .bullish, "", none, 1⟩)] =
        [("TechnicianBot", ⟨7, .bullish, "", none, 1⟩)] := by
      simp only [ScoringEngine.parseAll, ScoringEngine.parseVerdict, List.map, clampScore]
      norm_num
    have hagg : defaultEngine.filledCategoryScores
        [("TechnicianBot", ⟨7, .bullish, "", none, 1⟩)] = [(.Technical, 7)] := by
      simp [ScoringEngine.filledCategoryScores, ScoringEngine.categoryAggregates,
        ScoringEngine.catItems, ScoringEngine.hasCategory, ScoringEngine.effectiveCategory,
        ScoringEngine.agentCategory, aggregateItems, qualifiedItems, meanScores, defaultEngine, DEFAULT_CATEGORY_WEIGHTS,
        DEFAULT_AGENT_CATEGORY_MAP, List.filterMap, List.filter, List.find?, List.any,
        List.isEmpty]
      norm_num
    have huw : defaultEngine.computeUsedWeights [(.Technical, 7)] =
        .ok [(.Technical, 1)] := by
      simp [ScoringEngine.computeUsedWeights, defaultEngine, DEFAULT_CATEGORY_WEIGHTS,
        List.filter, List.any, List.isEmpty]
    simp only [ScoringEngine.score, hparsed, hagg, huw]
    norm_num [lookupCat, List.find?, clampScore, round2Q, roundHalfEvenQ, Int.fract,
      sentimentFromScore]
  exact ⟨hok, renormalize_used_weights defaultEngine _ _ rfl hok⟩

theorem roundHalfEvenR_eq_add_one (n : ℤ) (x : ℝ) (h1 : (n : ℝ) + 1/2 < x)
    (h2 : x < (n : ℝ) + 1) : roundHalfEvenR x = n + 1 := by
  have hfl : ⌊x⌋ = n := by
    rw [Int.floor_eq_iff]
    exact ⟨by linarith, by linarith⟩
  have hfr : Int.fract x = x - n := by
    rw [Int.fract, hfl]
  rw [roundHalfEvenR, hfr]
  rw [if_neg (by linarith), if_pos (by linarith), hfl]

set_option maxRecDepth 8000 in
/-- C2: on the spec example verdict map (7.8/8.6/6.4/5.9/4.8 plus an unmapped
DevilsAdvocate 3.2) under the default weights, `score` returns final score 6.98
(weighted sum 6.985 rounded half-to-even to 2 decimals) with bullish sentiment,
and the confidence score is 0.44. -/
theorem example_scoring_final_and_confidence :
    (defaultEngine.score exampleVerdicts none).map ScoringResult.final_score = .ok (698/100) ∧
    defaultEngine.confidenceScore (defaultEngine.parseAll exampleVerdicts) = 44/100 ∧
    majorityFraction ((defaultEngine.scorableAgentVerdicts
      (defaultEngine.parseAll exampleVerdicts)).map (fun p => p.2.score)) = 3/5 := by
  have hparsed : defaultEngine.parseAll exampleVerdicts =
      [("TechnicianBot", ⟨39/5, .bullish, "Uptrend intact", none, 1⟩),
       ("SecurityBot", ⟨43/5, .bullish, "Audits", none, 1⟩),
       ("TokenomicsBot", ⟨32/5, .neutral, "Emissions", none, 1⟩),
       ("SocialBot", ⟨59/10, .neutral, "Engagement", none, 1⟩),
       ("MacroBot", ⟨24/5, .neutral, "Liquidity", none, 1⟩),
       ("DevilsAdvocate", ⟨16/5, .bearish, "Narrative", none, 1⟩)] := by
    simp only [ScoringEngine.parseAll, ScoringEngine.parseVerdict, exampleVerdicts,
      List.map, clampScore]
    norm_num
  have hagg : defaultEngine.filledCategoryScores
      [("TechnicianBot", ⟨39/5, .bullish, "Uptrend intact", none, 1⟩),
       ("SecurityBot", ⟨43/5, .bullish, "Audits", none, 1⟩),
       ("TokenomicsBot", ⟨32/5, .neutral, "Emissions", none, 1⟩),
       ("SocialBot", ⟨59/10, .neutral, "Engagement", none, 1⟩),
       ("MacroBot", ⟨24/5, .neutral, "Liquidity", none, 1⟩),
       ("DevilsAdvocate", ⟨16/5, .bearish, "Narrative", none, 1⟩)] =
      [(.Technical, 39/5), (.Safety, 43/5), (.Tokenomics, 32/5),
       (.Social, 59/10), (.Macro, 24/5)] := by
    simp [ScoringEngine.filledCategoryScores, ScoringEngine.categoryAggregates,
      ScoringEngine.catItems, ScoringEngine.hasCategory, ScoringEngine.effectiveCategory,
      ScoringEngine.agentCategory, aggregateItems, qualifiedItems, meanScores, defaultEngine, DEFAULT_CATEGORY_WEIGHTS,
      DEFAULT_AGENT_CATEGORY_MAP, List.filterMap, List.filter, List.find?, List.any,
      List.isEmpty]
    norm_num
  have huw : defaultEngine.computeUsedWeights
      [(.Technical, 39/5), (.Safety, 43/5), (.Tokenomics, 32/5),
       (.Social, 59/10), (.Macro, 24/5)] =
      .ok [(.Technical, 1/4), (.Safety, 1/4), (.Tokenomics, 1/5),
           (.Social, 3/20), (.Macro, 3/20)] := by
    simp [ScoringEngine.computeUsedWeights, defaultEngine, DEFAULT_CATEGORY_WEIGHTS,
      List.filter, List.any, List.isEmpty]
    norm_num
  have hscored : defaultEngine.scorableAgentVerdicts (defaultEngine.parseAll exampleVerdicts) =
      [("TechnicianBot", ⟨39/5, .bullish, "Uptrend intact", none, 1⟩),
       ("SecurityBot", ⟨43/5, .bullish, "Audits", none, 1⟩),
       ("TokenomicsBot", ⟨32/5, .neutral, "Emissions", none, 1⟩),
       ("SocialBot", ⟨59/10, .neutral, "Engagement", none, 1⟩),
       ("MacroBot", ⟨24/5, .neutral, "Liquidity", none, 1⟩)] := by
    rw [hparsed]
    simp [ScoringEngine.scorableAgentVerdicts, ScoringEngine.effectiveCategory,
      ScoringEngine.agentCategory, ScoringEngine.hasCategory, defaultEngine,
      DEFAULT_CATEGORY_WEIGHTS, DEFAULT_AGENT_CATEGORY_MAP,
      List.filter, List.find?, List.any]
  have hmf : majorityFraction [(39:ℚ)/5, 43/5, 32/5, 59/10, 24/5] = 3/5 := by
    norm_num [majorityFraction, sentimentFromScore, List.countP_cons, List.countP_nil]
    norm_num [show (Sentiment.neutral = Sentiment.bullish) = False by simp,
      show (Sentiment.neutral = Sentiment.bearish) = False by simp,
      show (Sentiment.bullish = Sentiment.bearish) = False by simp,
      show (Sentiment.bullish = Sentiment.neutral) = False by simp]
  refine ⟨?_, ?_, ?_⟩
  · simp only [ScoringEngine.score, hparsed, hagg, huw]
    simp [lookupCat, List.find?, clampScore]
    norm_num [round2Q, roundHalfEvenQ, Int.fract, Except.map]
  · have hbody : defaultEngine.confidenceScore (defaultEngine.parseAll exampleVerdicts) =
        confidenceFromScores [39/5, 43/5, 32/5, 59/10, 24/5] := by
      rw [ScoringEngine.confidenceScore, hscored]
      rfl
    have hvar : popVariance [(39:ℚ)/5, 43/5, 32/5, 59/10, 24/5] = 229/125 := by
      norm_num [popVariance]
    rw [hbody, confidenceFromScores, varianceFactor, hmf, hvar]
    set s : ℝ := Real.sqrt (((229/125 : ℚ) : ℝ)) with hs
    have hs0 : 0 ≤ s := Real.sqrt_nonneg _
    have hs1 : s < 11/8 := by
      rw [hs, Real.sqrt_lt' (by norm_num)]
      push_cast
      norm_num
    have hs2 : (4/3 : ℝ) < s := by
      rw [hs, Real.lt_sqrt (by norm_num)]
      push_cast
      norm_num
    have hmax : max (0:ℝ) (1 - s / 5) = 1 - s / 5 := by
      rw [max_eq_right]
      linarith
    rw [hmax]
    have hval : ((3/5 : ℚ) : ℝ) * (1 - s / 5) = 3/5 * (1 - s/5) := by
      push_cast
      ring
    rw [hval]
    have hmin : min (1:ℝ) (3/5 * (1 - s/5)) = 3/5 * (1 - s/5) := by
      rw [min_eq_right]
      nlinarith
    rw [hmin]
    have hmax2 : max (0:ℝ) (3/5 * (1 - s/5)) = 3/5 * (1 - s/5) := by
      rw [max_eq_right]
      nlinarith
    rw [hmax2, round2R]
    have h44 : roundHalfEvenR (100 * (3/5 * (1 - s/5))) = 44 := by
      have h := roundHalfEvenR_eq_add_one 43 (100 * (3/5 * (1 - s/5)))
        (by push_cast; nlinarith) (by push_cast; nlinarith)
      simpa using h
    rw [h44]
    norm_num
  · rw [hscored]
    simpa using hmf

/-- C9: `mkScoringEngine` returns a configuration error exactly when some weight
is negative or the weights sum to a non-positive total (an empty table sums to 0),
and `score` under the renormalize policy returns the no-scorable-categories error
when the verdicts populate no weighted category. -/
theorem configuration_error_conditions :
    (∀ (w : List (Category × ℚ)) (m : List (String × Category)) (p : MissingPolicy),
      (∃ msg, mkScoringEngine w m p = .error msg) ↔
        ((∃ q ∈ w, q.2 < 0) ∨ (w.map Prod.snd).sum ≤ 0)) ∧
    (∀ (e : ScoringEngine) (verdicts : List (String × VerdictPayload)),
      e.missingPolicy = .renormalize →
      e.categoryAggregates (e.parseAll verdicts) = [] →
      e.score verdicts none = .error "No scorable categories present in verdicts") := by
  constructor
  · intro w m p
    rw [mkScoringEngine]
    by_cases hneg : w.any (fun q => decide (q.2 < 0))
    · simp only [hneg, if_true]
      simp only [List.any_eq_true, decide_eq_true_eq] at hneg
      simp [hneg]
    · simp only [hneg, Bool.false_eq_true, if_false]
      simp only [List.any_eq_true, decide_eq_true_eq] at hneg
      push_neg at hneg
      by_cases htot : (w.map Prod.snd).sum ≤ 0
      · simp only [htot, if_true]
        simp [htot]
      · simp only [htot, if_false]
        constructor
        · rintro ⟨msg, hmsg⟩
          exact absurd hmsg (by simp)
        · rintro (⟨q, hq, hlt⟩ | h)
          · exact absurd hlt (not_lt.mpr (hneg q hq))
          · exact h.elim
  · intro e verdicts hpol hagg
    have hfill : e.filledCategoryScores (e.parseAll verdicts) = [] := by
      rw [ScoringEngine.filledCategoryScores, hpol, hagg]
    rw [ScoringEngine.score, hfill]
    rw [ScoringEngine.computeUsedWeights, hpol]
    have hpres : e.weights.filter
        (fun p => ([] : List (Category × ℚ)).any (fun q => decide (q.1 = p.1))) = [] := by
      simp
    rw [hpres]
    rfl

/-- Witness for C9: a negative weight errors, and scoring an empty verdict map
with the default engine yields the exact error message. -/
theorem configuration_error_conditions_witness :
    ((∃ msg, mkScoringEngine [(Category.Technical, -1)] [] .renormalize = .error msg) ↔
      ((∃ q ∈ [((Category.Technical : Category), (-1 : ℚ))], q.2 < 0) ∨
        (([((Category.Technical : Category), (-1 : ℚ))].map Prod.snd).sum ≤ 0))) ∧
    defaultEngine.score ([] : List (String × VerdictPayload)) none =
      .error "No scorable categories present in verdicts" := by
  constructor
  · exact configuration_error_conditions.1 [(Category.Technical, -1)] [] .renormalize
  · apply configuration_error_conditions.2 defaultEngine _ rfl
    simp [ScoringEngine.categoryAggregates, ScoringEngine.catItems, ScoringEngine.parseAll,
      defaultEngine, DEFAULT_CATEGORY_WEIGHTS]

set_option maxRecDepth 8000 in
theorem confidenceShape_aggregates :
    defaultEngine.categoryAggregates (defaultEngine.parseAll confidenceShapeVerdicts) =
      [(Category.Technical, 5)] := by
  have hparse : defaultEngine.parseAll confidenceShapeVerdicts =
      [("AgentA", ⟨0, .neutral, "".trim, some .Technical, 1⟩),
       ("AgentB", ⟨10, .bullish, "", some .Technical, 1⟩)] := by
    simp only [ScoringEngine.parseAll, ScoringEngine.parseVerdict, confidenceShapeVerdicts,
      mappingLowConfidencePayload, ScoringEngine.hasCategory, defaultEngine,
      DEFAULT_CATEGORY_WEIGHTS, List.map, List.any, clampScore, Option.getD]
    norm_num
  rw [hparse]
  simp [ScoringEngine.categoryAggregates, ScoringEngine.catItems, ScoringEngine.hasCategory,
    ScoringEngine.effectiveCategory, aggregateItems, qualifiedItems, meanScores,
    defaultEngine, DEFAULT_CATEGORY_WEIGHTS,
    List.filterMap, List.filter, List.any, List.isEmpty]
  norm_num

set_option maxRecDepth 8000 in
/-- C3 counterexample: a mapping-shaped verdict carrying confidence 0.05 is
still averaged into its category, because `_parse_verdict` drops the mapping
branch confidence key (parsed confidence is the 1.0 default).  On
`confidenceShapeVerdicts` the code aggregates Technical to 5, while the
spec-predicted exclusion of the low-confidence verdict would give 10. -/
theorem mapping_confidence_dropped_cex :
    defaultEngine.categoryAggregates (defaultEngine.parseAll confidenceShapeVerdicts) =
      [(Category.Technical, 5)] ∧
    defaultEngine.categoryAggregates (parseAllSpec defaultEngine confidenceShapeVerdicts) =
      [(Category.Technical, 10)] ∧
    (defaultEngine.parseVerdict mappingLowConfidencePayload).confidence = 1 ∧
    ¬((5 : ℚ) = 10) := by
  have hparseSpec : parseAllSpec defaultEngine confidenceShapeVerdicts =
      [("AgentA", ⟨0, .neutral, "".trim, some .Technical, 1/20⟩),
       ("AgentB", ⟨10, .bullish, "", some .Technical, 1⟩)] := by
    simp only [parseAllSpec, parseVerdictSpec, confidenceShapeVerdicts,
      mappingLowConfidencePayload, ScoringEngine.hasCategory, defaultEngine,
      DEFAULT_CATEGORY_WEIGHTS, List.map, List.any, clampScore, Option.getD]
    norm_num
  refine ⟨confidenceShape_aggregates, ?_, ?_, by norm_num⟩
  · rw [hparseSpec]
    simp [ScoringEngine.categoryAggregates, ScoringEngine.catItems, ScoringEngine.hasCategory,
      ScoringEngine.effectiveCategory, aggregateItems, qualifiedItems, meanScores,
      defaultEngine, DEFAULT_CATEGORY_WEIGHTS,
      List.filterMap, List.filter, List.any, List.isEmpty]
    norm_num
  · simp only [ScoringEngine.parseVerdict, mappingLowConfidencePayload, ScoringEngine.hasCategory,
      defaultEngine, DEFAULT_CATEGORY_WEIGHTS, List.any, clampScore, Option.getD]
    norm_num

/-- C3 amended: every category aggregate is the mean of the category items with
parsed confidence > 0.1, falling back to the mean of all of the category items
when none qualifies — but mapping-shaped verdicts always parse with confidence 1,
so the exclusion can only ever act on structured `AgentVerdict` inputs. -/
theorem category_aggregation_amended (e : ScoringEngine)
    (verdicts : List (String × VerdictPayload)) (c : Category) (x : ℚ)
    (hmem : (c, x) ∈ e.categoryAggregates (e.parseAll verdicts)) :
    ((qualifiedItems (e.catItems (e.parseAll verdicts) c) ≠ [] →
        x = meanScores (qualifiedItems (e.catItems (e.parseAll verdicts) c))) ∧
     (qualifiedItems (e.catItems (e.parseAll verdicts) c) = [] →
        x = meanScores (e.catItems (e.parseAll verdicts) c))) ∧
    (∀ (sc : Option ℚ) (st : Option Sentiment) (re : String) (ca : Option Category)
       (co : Option ℚ), (e.parseVerdict (.mapping sc st re ca co)).confidence = 1) := by
  have hx : x = aggregateItems (e.catItems (e.parseAll verdicts) c) := by
    simp only [ScoringEngine.categoryAggregates, List.mem_filterMap] at hmem
    obtain ⟨⟨c2, w⟩, hmemw, hf⟩ := hmem
    by_cases hempty : (e.catItems (e.parseAll verdicts) c2).isEmpty
    · simp [hempty] at hf
    · simp only [hempty, Bool.false_eq_true, if_false, Option.some_inj, Prod.mk.injEq] at hf
      obtain ⟨h1, h2⟩ := hf
      rw [← h2, h1]
  constructor
  · constructor
    · intro hq
      have hq2 : (qualifiedItems (e.catItems (e.parseAll verdicts) c)).isEmpty = false := by
        cases hl : qualifiedItems (e.catItems (e.parseAll verdicts) c) with
        | nil => exact absurd hl hq
        | cons a l => rfl
      rw [hx, aggregateItems]
      simp [hq2]
    · intro hq
      have hq2 : (qualifiedItems (e.catItems (e.parseAll verdicts) c)).isEmpty = true := by
        rw [hq]
        rfl
      rw [hx, aggregateItems]
      simp [hq2]
  · intro sc st re ca co
    simp only [ScoringEngine.parseVerdict]
    split
    · rfl
    · rfl

set_option maxRecDepth 8000 in
/-- Witness for C3 amended at the `confidenceShapeVerdicts` input. -/
theorem category_aggregation_amended_witness :
    ((Category.Technical, (5:ℚ)) ∈
      defaultEngine.categoryAggregates (defaultEngine.parseAll confidenceShapeVerdicts)) ∧
    ((qualifiedItems (defaultEngine.catItems
        (defaultEngine.parseAll confidenceShapeVerdicts) Category.Technical) ≠ [] →
      (5:ℚ) = meanScores (qualifiedItems (defaultEngine.catItems
        (defaultEngine.parseAll confidenceShapeVerdicts) Category.Technical))) ∧
     (qualifiedItems (defaultEngine.catItems
        (defaultEngine.parseAll confidenceShapeVerdicts) Category.Technical) = [] →
      (5:ℚ) = meanScores (defaultEngine.catItems
        (defaultEngine.parseAll confidenceShapeVerdicts) Category.Technical))) ∧
    (∀ (sc : Option ℚ) (st : Option Sentiment) (re : String) (ca : Option Category)
       (co : Option ℚ),
       (defaultEngine.parseVerdict (.mapping sc st re ca co)).confidence = 1) := by
  have hmem : ((Category.Technical, (5:ℚ)) ∈
      defaultEngine.categoryAggregates (defaultEngine.parseAll confidenceShapeVerdicts)) := by
    rw [confidenceShape_aggregates]
    simp
  exact ⟨hmem,
    (category_aggregation_amended defaultEngine confidenceShapeVerdicts Category.Technical 5
      hmem).1,
    (category_aggregation_amended defaultEngine confidenceShapeVerdicts Category.Technical 5
      hmem).2⟩

theorem step_max_snd (b x : String × ℚ) :
    (if b.2 < x.2 then x else b).2 = max b.2 x.2 := by
  rw [max_def]
  split_ifs with h1 h2 h2
  · rfl
  · exact absurd (le_of_lt h1) h2
  · exact le_antisymm h2 (not_lt.mp h1)
  · rfl

theorem step_min_snd (b x : String × ℚ) :
    (if x.2 < b.2 then x else b).2 = min b.2 x.2 := by
  rw [min_def]
  split_ifs with h1 h2 h2
  · exact le_antisymm (le_of_lt h1) h2
  · rfl
  · rfl
  · exact absurd (not_lt.mp h1) h2

theorem pyMaxBy_cons (hd a : String × ℚ) (tl : List (String × ℚ)) :
    pyMaxBy hd (a :: tl) = pyMaxBy (if hd.2 < a.2 then a else hd) tl := by
  rw [pyMaxBy, pyMaxBy, List.foldl_cons]

theorem pyMinBy_cons (hd a : String × ℚ) (tl : List (String × ℚ)) :
    pyMinBy hd (a :: tl) = pyMinBy (if a.2 < hd.2 then a else hd) tl := by
  rw [pyMinBy, pyMinBy, List.foldl_cons]

theorem pyMaxBy_mem (hd : String × ℚ) (tl : List (String × ℚ)) :
    pyMaxBy hd tl ∈ hd :: tl := by
  induction tl generalizing hd with
  | nil => simp [pyMaxBy]
  | cons a l ih =>
    rw [pyMaxBy_cons]
    rcases List.mem_cons.mp (ih (if hd.2 < a.2 then a else hd)) with h3 | h3
    · by_cases hc : hd.2 < a.2
      · rw [h3]
        simp [hc]
      · rw [h3]
        simp [hc]
    · simp [List.mem_cons, h3]

theorem pyMinBy_mem (hd : String × ℚ) (tl : List (String × ℚ)) :
    pyMinBy hd tl ∈ hd :: tl := by
  induction tl generalizing hd with
  | nil => simp [pyMinBy]
  | cons a l ih =>
    rw [pyMinBy_cons]
    rcases List.mem_cons.mp (ih (if a.2 < hd.2 then a else hd)) with h3 | h3
    · by_cases hc : a.2 < hd.2
      · rw [h3]
        simp [hc]
      · rw [h3]
        simp [hc]
    · simp [List.mem_cons, h3]

theorem pyMaxBy_snd (hd : String × ℚ) (tl : List (String × ℚ)) :
    (pyMaxBy hd tl).2 = (tl.map Prod.snd).foldl max hd.2 := by
  induction tl generalizing hd with
  | nil => simp [pyMaxBy]
  | cons a l ih =>
    rw [pyMaxBy_cons, List.map_cons, List.foldl_cons, ih, step_max_snd]

theorem pyMinBy_snd (hd : String × ℚ) (tl : List (String × ℚ)) :
    (pyMinBy hd tl).2 = (tl.map Prod.snd).foldl min hd.2 := by
  induction tl generalizing hd with
  | nil => simp [pyMinBy]
  | cons a l ih =>
    rw [pyMinBy_cons, List.map_cons, List.foldl_cons, ih, step_min_snd]

theorem pyMaxBy_ge (hd : String × ℚ) (tl : List (String × ℚ)) :
    ∀ q ∈ hd :: tl, q.2 ≤ (pyMaxBy hd tl).2 := by
  induction tl generalizing hd with
  | nil => simp [pyMaxBy]
  | cons a l ih =>
    intro q hq
    rw [pyMaxBy_cons]
    have hstep : hd.2 ≤ (if hd.2 < a.2 then a else hd).2 ∧
        a.2 ≤ (if hd.2 < a.2 then a else hd).2 := by
      by_cases hc : hd.2 < a.2 <;> simp [hc]
      · exact le_of_lt hc
      · exact not_lt.mp hc
    rcases List.mem_cons.mp hq with rfl | hq2
    · calc q.2 ≤ (if q.2 < a.2 then a else q).2 := hstep.1
        _ ≤ (pyMaxBy (if q.2 < a.2 then a else q) l).2 :=
          ih _ _ (List.mem_cons_self _ _)
    · rcases List.mem_cons.mp hq2 with rfl | hq3
      · calc q.2 ≤ (if hd.2 < q.2 then q else hd).2 := hstep.2
          _ ≤ (pyMaxBy (if hd.2 < q.2 then q else hd) l).2 :=
            ih _ _ (List.mem_cons_self _ _)
      · exact ih _ q (List.mem_cons_of_mem _ hq3)

theorem pyMinBy_le (hd : String × ℚ) (tl : List (String × ℚ)) :
    ∀ q ∈ hd :: tl, (pyMinBy hd tl).2 ≤ q.2 := by
  induction tl generalizing hd with
  | nil => simp [pyMinBy]
  | cons a l ih =>
    intro q hq
    rw [pyMinBy_cons]
    have hstep : (if a.2 < hd.2 then a else hd).2 ≤ hd.2 ∧
        (if a.2 < hd.2 then a else hd).2 ≤ a.2 := by
      by_cases hc : a.2 < hd.2 <;> simp [hc]
      · exact le_of_lt hc
      · exact not_lt.mp hc
    rcases List.mem_cons.mp hq with rfl | hq2
    · calc (pyMinBy (if a.2 < q.2 then a else q) l).2
          ≤ (if a.2 < q.2 then a else q).2 := ih _ _ (List.mem_cons_self _ _)
        _ ≤ q.2 := hstep.1
    · rcases List.mem_cons.mp hq2 with rfl | hq3
      · calc (pyMinBy (if q.2 < hd.2 then q else hd) l).2
            ≤ (if q.2 < hd.2 then q else hd).2 := ih _ _ (List.mem_cons_self _ _)
          _ ≤ q.2 := hstep.2
      · exact ih _ q (List.mem_cons_of_mem _ hq3)

set_option maxRecDepth 8000 in
/-- C5: for a category listing, a debate triggers iff it has at least two agents
and max score − min score ≥ 2.5, and the participants are the highest- and
lowest-scoring agents (first-wins tie-breaking); spread 2.4 (6.0 vs 8.4) does
not trigger, spread 2.6 (6.0 vs 8.6) does. -/
theorem intra_category_debate_trigger :
    (∀ c : Category, triggerFor c [] = none) ∧
    (∀ (c : Category) (hd : String × ℚ) (tl : List (String × ℚ)),
      ((triggerFor c (hd :: tl)).isSome = true ↔
        (2 ≤ (hd :: tl).length ∧
          DEBATE_THRESHOLD ≤
            (tl.map Prod.snd).foldl max hd.2 - (tl.map Prod.snd).foldl min hd.2)) ∧
      (∀ t, triggerFor c (hd :: tl) = some t →
        t.category = c ∧ t.highest = pyMaxBy hd tl ∧ t.lowest = pyMinBy hd tl ∧
        t.highest ∈ hd :: tl ∧ t.lowest ∈ hd :: tl ∧
        (∀ q ∈ hd :: tl, q.2 ≤ t.highest.2 ∧ t.lowest.2 ≤ q.2))) ∧
    (checkAndRunDebates defaultEngine
        [("A", ⟨6, some .Technical⟩), ("B", ⟨42/5, some .Technical⟩)] = []) ∧
    (checkAndRunDebates defaultEngine
        [("A", ⟨6, some .Technical⟩), ("B", ⟨43/5, some .Technical⟩)] = [boundaryTrigger]) := by
  refine ⟨fun c => rfl, ?_, ?_, ?_⟩
  · intro c hd tl
    constructor
    · simp only [triggerFor]
      by_cases hlen : (hd :: tl).length < 2
      · rw [if_pos hlen]
        simp only [Option.isSome_none, Bool.false_eq_true, false_iff, not_and]
        intro h2
        exact absurd h2 (by omega)
      · rw [if_neg hlen]
        by_cases hthr : DEBATE_THRESHOLD ≤
            (tl.map Prod.snd).foldl max hd.2 - (tl.map Prod.snd).foldl min hd.2
        · rw [if_pos hthr]
          exact ⟨fun _ => ⟨not_lt.mp hlen, hthr⟩, fun _ => rfl⟩
        · rw [if_neg hthr]
          simp only [Option.isSome_none, Bool.false_eq_true, false_iff, not_and]
          intro _
          exact hthr
    · intro t ht
      simp only [triggerFor] at ht
      by_cases hlen : (hd :: tl).length < 2
      · rw [if_pos hlen] at ht
        exact absurd ht (by simp)
      · rw [if_neg hlen] at ht
        by_cases hthr : DEBATE_THRESHOLD ≤
            (tl.map Prod.snd).foldl max hd.2 - (tl.map Prod.snd).foldl min hd.2
        · rw [if_pos hthr, Option.some_inj] at ht
          subst ht
          refine ⟨rfl, rfl, rfl, pyMaxBy_mem hd tl, pyMinBy_mem hd tl, ?_⟩
          intro q hq
          exact ⟨pyMaxBy_ge hd tl q hq, pyMinBy_le hd tl q hq⟩
        · rw [if_neg hthr] at ht
          exact absurd ht (by simp)
  · norm_num [checkAndRunDebates, debateByCategory, addToCategory, debateCategoryOf,
      triggerFor, pyMaxBy, pyMinBy, DEBATE_THRESHOLD, max_def, min_def,
      List.foldl, List.filterMap, List.map, List.any]
  · norm_num [checkAndRunDebates, debateByCategory, addToCategory, debateCategoryOf,
      triggerFor, pyMaxBy, pyMinBy, DEBATE_THRESHOLD, boundaryTrigger, max_def, min_def,
      List.foldl, List.filterMap, List.map, List.any]

/-- Witness for C5 at the 6.0/8.6 boundary input. -/
theorem intra_category_debate_trigger_witness :
    triggerFor Category.Technical boundaryScores = some boundaryTrigger ∧
    boundaryTrigger.category = Category.Technical ∧
    boundaryTrigger.highest = pyMaxBy ("A", 6) [("B", 43/5)] ∧
    boundaryTrigger.lowest = pyMinBy ("A", 6) [("B", 43/5)] ∧
    boundaryTrigger.highest ∈ boundaryScores ∧
    boundaryTrigger.lowest ∈ boundaryScores ∧
    (∀ q ∈ boundaryScores,
      q.2 ≤ boundaryTrigger.highest.2 ∧ boundaryTrigger.lowest.2 ≤ q.2) := by
  have htrig : triggerFor Category.Technical boundaryScores = some boundaryTrigger := by
    norm_num [triggerFor, pyMaxBy, pyMinBy, DEBATE_THRESHOLD, boundaryScores, boundaryTrigger,
      max_def, min_def, List.foldl]
  have h := (intra_category_debate_trigger.2.1 Category.Technical ("A", 6) [("B", 43/5)]).2
    boundaryTrigger (by rw [← htrig]; rfl)
  exact ⟨htrig, h.1, h.2.1, h.2.2.1,
    by rw [boundaryScores]; exact h.2.2.2.1,
    by rw [boundaryScores]; exact h.2.2.2.2.1,
    by rw [boundaryScores]; exact h.2.2.2.2.2⟩

/-- C8 counterexample: `replay` filters strictly on `e.timestamp > after_timestamp`,
so when events share a timestamp, replaying after `events[k].timestamp` does not
return exactly the events with index > k: on a two-event bus with equal
timestamps, replay after `events[0].timestamp` is empty, not `[events[1]]`. -/
theorem replay_timestamp_tie_cex :
    (tieBus.events.map ScanEvent.timestamp = [5, 5] ∧
      tieBus.events.Pairwise (fun a b => a.timestamp ≤ b.timestamp)) ∧
    tieBus.replay (some ((tieBus.events.get ⟨0, by decide⟩).timestamp)) = [] ∧
    tieBus.events.drop 1 = [⟨1, "agent:score", "scan1", 5, "d2"⟩] ∧
    tieBus.replay (some ((tieBus.events.get ⟨0, by decide⟩).timestamp)) ≠
      tieBus.events.drop 1 := by
  refine ⟨⟨?_, ?_⟩, ?_, ?_, ?_⟩ <;> decide

theorem filter_eq_drop_of (l : List ScanEvent) (p : ScanEvent → Bool) (n : ℕ)
    (h1 : ∀ x ∈ l.take n, p x = false) (h2 : ∀ x ∈ l.drop n, p x = true) :
    l.filter p = l.drop n := by
  conv_lhs => rw [← List.take_append_drop n l]
  rw [List.filter_append, List.filter_eq_nil_iff.mpr (by intro a ha; simp [h1 a ha]),
    List.filter_eq_self.mpr h2, List.nil_append]

/-- C8 amended: on a bus with non-decreasing timestamps, if the timestamp
strictly increases from index k to k+1 then replay after `events[k].timestamp`
returns exactly the suffix of events with index > k, in emission order. -/
theorem replay_after_timestamp (b : ScanEventBus) (k : ℕ) (hk : k < b.events.length)
    (hsorted : b.events.Pairwise (fun a c => a.timestamp ≤ c.timestamp))
    (hstrict : ∀ hk1 : k + 1 < b.events.length,
      (b.events.get ⟨k, hk⟩).timestamp < (b.events.get ⟨k + 1, hk1⟩).timestamp) :
    b.replay (some ((b.events.get ⟨k, hk⟩).timestamp)) = b.events.drop (k + 1) := by
  rw [ScanEventBus.replay]
  apply filter_eq_drop_of
  · intro x hx
    obtain ⟨i, hi, hx2⟩ := List.getElem_of_mem hx
    have hilen : i < b.events.length := by
      have := List.length_take_le (k+1) b.events
      omega
    have hik : i ≤ k := by
      have : i < (b.events.take (k+1)).length := hi
      rw [List.length_take] at this
      omega
    have hxe : x = b.events[i] := by
      rw [← hx2]
      exact List.getElem_take b.events
    have hle : x.timestamp ≤ (b.events.get ⟨k, hk⟩).timestamp := by
      rcases Nat.lt_or_ge i k with hik2 | hik2
      · have := (List.pairwise_iff_getElem.mp hsorted) i k hilen hk hik2
        rw [hxe]
        exact this
      · have : i = k := le_antisymm hik hik2
        subst this
        rw [hxe]
        rfl
    simp only [decide_eq_false_iff_not, not_lt]
    exact hle
  · intro x hx
    obtain ⟨i, hi, hx2⟩ := List.getElem_of_mem hx
    have hilen : k + 1 + i < b.events.length := by
      rw [List.length_drop] at hi
      omega
    have hk1 : k + 1 < b.events.length := by omega
    have hxe : x = b.events[k + 1 + i] := by
      rw [← hx2]
      exact List.getElem_drop b.events
    have hgt : (b.events.get ⟨k, hk⟩).timestamp < x.timestamp := by
      have hstep := hstrict hk1
      rcases Nat.eq_zero_or_pos i with rfl | hpos
      · rw [hxe]
        simpa using hstep
      · have := (List.pairwise_iff_getElem.mp hsorted) (k+1) (k+1+i) hk1 hilen (by omega)
        rw [hxe]
        calc (b.events.get ⟨k, hk⟩).timestamp < (b.events.get ⟨k+1, hk1⟩).timestamp := hstep
          _ ≤ b.events[k+1+i].timestamp := this
    simp only [decide_eq_true_eq]
    exact hgt

/-- Witness for C8 amended on a three-event bus with strictly increasing
timestamps. -/
theorem replay_after_timestamp_witness :
    (1 < triBus.events.length ∧
     triBus.events.Pairwise (fun a c => a.timestamp ≤ c.timestamp)) ∧
    triBus.replay (some ((triBus.events.get ⟨1, by decide⟩).timestamp)) =
      triBus.events.drop 2 := by
  refine ⟨⟨by decide, by decide⟩, ?_⟩
  refine replay_after_timestamp triBus 1 (by decide) (by decide) ?_
  intro hk1
  have h : (triBus.events.get ⟨1, by decide⟩).timestamp <
      (triBus.events.get ⟨2, by decide⟩).timestamp := by decide
  exact h

/-- C4 counterexample: the challenge-pair dedup set is a module-level global
shared across scans, not per-scan state.  With two interleaved scans that both
clear the set on start and then complete the same bot pair, scan B's qualifying
challenge pair is suppressed by scan A's earlier emission, whereas per-scan
state would emit it. -/
theorem dedup_shared_across_scans_cex :
    (runModuleOps interleavedOps).2 = [("A", ("X", "Y"))] ∧
    (runPerScanOps interleavedOps).2 = [("A", ("X", "Y")), ("B", ("X", "Y"))] ∧
    ((runModuleOps interleavedOps).2.filter (fun ev => decide (ev.1 = "B"))) = [] ∧
    DEBATE_THRESHOLD ≤ |(9 : ℚ) - 2| ∧
    ¬((runModuleOps interleavedOps).2 = (runPerScanOps interleavedOps).2) := by
  have hxy : ("X" : String) ≤ "Y" := by
    rw [String.le_iff_toList_le]
    decide
  have hYX : ¬("Y" : String) = "X" := by decide
  have hAB : ¬("A" : String) = "B" := by decide
  have hBA : ¬("B" : String) = "A" := by decide
  have e1 : emitChallenges [] "X" 9 [("Y", 2)] = ([("X", "Y")], [("X", "Y")]) := by
    rw [emitChallenges, List.foldl_cons, List.foldl_nil, challengeStep]
    norm_num [pairKey, hxy, hYX, DEBATE_THRESHOLD]
  have e2 : emitChallenges [("X", "Y")] "X" 9 [("Y", 2)] = ([("X", "Y")], []) := by
    rw [emitChallenges, List.foldl_cons, List.foldl_nil, challengeStep]
    norm_num [pairKey, hxy, hYX, DEBATE_THRESHOLD]
  have h1 : (runModuleOps interleavedOps).2 = [("A", ("X", "Y"))] := by
    rw [runModuleOps, interleavedOps, List.foldl_cons, List.foldl_cons, List.foldl_cons,
      List.foldl_cons, List.foldl_nil]
    show (moduleFoldStep (moduleFoldStep ([], []) _) _).2 = _
    rw [show moduleFoldStep ([], []) (ScanOp.botComplete "A" "X" 9 [("Y", 2)]) =
        ([("X", "Y")], [("A", ("X", "Y"))]) by rw [moduleFoldStep, moduleStep, e1]; rfl]
    rw [show moduleFoldStep ([("X", "Y")], [("A", ("X", "Y"))])
          (ScanOp.botComplete "B" "X" 9 [("Y", 2)]) =
        ([("X", "Y")], [("A", ("X", "Y"))]) by rw [moduleFoldStep, moduleStep, e2]; rfl]
  have h2 : (runPerScanOps interleavedOps).2 = [("A", ("X", "Y")), ("B", ("X", "Y"))] := by
    rw [runPerScanOps, interleavedOps, List.foldl_cons, List.foldl_cons, List.foldl_cons,
      List.foldl_cons, List.foldl_nil]
    have hs1 : setScanSet [] "A" [] = [("A", [])] := rfl
    have hs2 : setScanSet [("A", [])] "B" [] = [("A", []), ("B", [])] := by
      rw [setScanSet]
      simp [hAB]
    simp only [hs1, hs2]
    rw [show getScanSet [("A", []), ("B", [])] "A" = [] from by rw [getScanSet]; simp]
    rw [e1]
    rw [show setScanSet [("A", []), ("B", [])] "A" [("X", "Y")] =
        [("A", [("X", "Y")]), ("B", [])] from by rw [setScanSet]; simp [hBA]]
    rw [show getScanSet [("A", [("X", "Y")]), ("B", [])] "B" = [] from by
      rw [getScanSet]
      simp [hAB, hBA]]
    rw [e1]
    simp
  refine ⟨h1, h2, ?_, by norm_num [DEBATE_THRESHOLD], ?_⟩
  · rw [h1]
    simp [hAB]
  · intro h
    rw [h1, h2] at h
    exact absurd h (by simp)

theorem challengeStep_spec (nb : String) (ns : ℚ)
    (acc : List (String × String) × List (String × String)) (p : String × ℚ) :
    challengeStep nb ns acc p = acc ∨
    (challengeStep nb ns acc p = (acc.1 ++ [pairKey nb p.1], acc.2 ++ [pairKey nb p.1]) ∧
     pairKey nb p.1 ∉ acc.1) := by
  rw [challengeStep]
  dsimp only
  split
  · exact Or.inl rfl
  · split
    · exact Or.inl rfl
    · split
      · exact Or.inl rfl
      · rename_i hany _
        refine Or.inr ⟨rfl, ?_⟩
        intro hmem
        apply hany
        simp only [List.any_eq_true, decide_eq_true_eq]
        exact ⟨_, hmem, rfl⟩

theorem challengeStep_inv (nb : String) (ns : ℚ) (st : List (String × String))
    (prior : List (String × ℚ)) :
    ∀ acc : List (String × String) × List (String × String),
      (∀ p ∈ st, p ∈ acc.1) → acc.2.Nodup → (∀ p ∈ acc.2, p ∉ st) →
      (∀ p ∈ acc.2, p ∈ acc.1) →
      ((∀ p ∈ st, p ∈ (prior.foldl (challengeStep nb ns) acc).1) ∧
       (prior.foldl (challengeStep nb ns) acc).2.Nodup ∧
       (∀ p ∈ (prior.foldl (challengeStep nb ns) acc).2, p ∉ st) ∧
       (∀ p ∈ (prior.foldl (challengeStep nb ns) acc).2,
          p ∈ (prior.foldl (challengeStep nb ns) acc).1)) := by
  induction prior with
  | nil =>
    intro acc h1 h2 h3 h4
    exact ⟨h1, h2, h3, h4⟩
  | cons q rest ih =>
    intro acc h1 h2 h3 h4
    rw [List.foldl_cons]
    rcases challengeStep_spec nb ns acc q with hcs | ⟨hcs, hnotin⟩
    · rw [hcs]
      exact ih acc h1 h2 h3 h4
    · rw [hcs]
      apply ih
      · intro p hp
        exact List.mem_append_left _ (h1 p hp)
      · rw [List.nodup_append]
        refine ⟨h2, List.nodup_singleton _, ?_⟩
        intro a ha hb
        rw [List.mem_singleton] at hb
        subst hb
        exact hnotin (h4 _ ha)
      · intro p hp
        rcases List.mem_append.mp hp with hp2 | hp2
        · exact h3 p hp2
        · rw [List.mem_singleton] at hp2
          subst hp2
          intro hcon
          exact hnotin (h1 _ hcon)
      · intro p hp
        rcases List.mem_append.mp hp with hp2 | hp2
        · exact List.mem_append_left _ (h4 p hp2)
        · exact List.mem_append_right _ hp2

theorem moduleFold_inv (rest : List ScanOp)
    (hrest : ∀ op ∈ rest, ∀ sid, op ≠ ScanOp.scanStart sid) :
    ∀ (st : List (String × String)) (evs : List (String × (String × String))),
      (evs.map Prod.snd).Nodup → (∀ p ∈ evs.map Prod.snd, p ∈ st) →
      (((rest.foldl moduleFoldStep (st, evs)).2.map Prod.snd).Nodup ∧
       (∀ p ∈ (rest.foldl moduleFoldStep (st, evs)).2.map Prod.snd,
          p ∈ (rest.foldl moduleFoldStep (st, evs)).1)) := by
  induction rest with
  | nil =>
    intro st evs h1 h2
    exact ⟨h1, h2⟩
  | cons op rest2 ih =>
    intro st evs h1 h2
    rw [List.foldl_cons]
    cases op with
    | scanStart sid => exact absurd rfl (hrest _ (List.mem_cons_self _ _) sid)
    | botComplete sid nb ns prior =>
      have hrest2 : ∀ op ∈ rest2, ∀ sid2, op ≠ ScanOp.scanStart sid2 :=
        fun op hop => hrest op (List.mem_cons_of_mem _ hop)
      have hinv := challengeStep_inv nb ns st prior (st, [])
        (fun p hp => hp) List.nodup_nil (by simp) (by simp)
      have hstep : moduleFoldStep (st, evs) (ScanOp.botComplete sid nb ns prior) =
          ((emitChallenges st nb ns prior).1,
            evs ++ (emitChallenges st nb ns prior).2.map (fun k => (sid, k))) := by
        rfl
      rw [hstep]
      apply ih hrest2
      · rw [List.map_append, List.map_map]
        rw [List.nodup_append]
        refine ⟨h1, ?_, ?_⟩
        · have := hinv.2.1
          rw [emitChallenges] at *
          have heq : (List.map (Prod.snd ∘ fun k => (sid, k))
              (prior.foldl (challengeStep nb ns) (st, [])).2) =
              (prior.foldl (challengeStep nb ns) (st, [])).2 := by
            simp [Function.comp]
          rw [heq]
          exact this
        · intro a ha hb
          have ha2 : a ∈ st := h2 a ha
          have heq : (List.map (Prod.snd ∘ fun k => (sid, k))
              (prior.foldl (challengeStep nb ns) (st, [])).2) =
              (prior.foldl (challengeStep nb ns) (st, [])).2 := by
            simp [Function.comp]
          rw [emitChallenges] at hb
          rw [heq] at hb
          exact absurd ha2 (hinv.2.2.1 a hb)
      · intro p hp
        rw [List.map_append, List.map_map] at hp
        have heq : (List.map (Prod.snd ∘ fun k => (sid, k))
            (emitChallenges st nb ns prior).2) = (emitChallenges st nb ns prior).2 := by
          simp [Function.comp]
        rw [heq] at hp
        rcases List.mem_append.mp hp with hp2 | hp2
        · exact hinv.1 p (h2 p hp2)
        · rw [emitChallenges] at hp2
          exact hinv.2.2.2 p hp2

/-- C4 single-scan part: within one scan (no interleaving), no unordered agent
pair is ever emitted twice — the emitted pair list is duplicate-free. -/
theorem challenge_dedup_single_scan (s : String) (rest : List ScanOp)
    (hrest : ∀ op ∈ rest, ∀ sid, op ≠ ScanOp.scanStart sid) :
    ((runModuleOps (ScanOp.scanStart s :: rest)).2.map Prod.snd).Nodup := by
  rw [runModuleOps, List.foldl_cons]
  have hstart : moduleFoldStep ([], []) (ScanOp.scanStart s) = ([], []) := rfl
  rw [hstart]
  exact (moduleFold_inv rest hrest [] [] List.nodup_nil (by simp)).1

/-- Witness for the C4 single-scan dedup theorem on a concrete operation list. -/
theorem challenge_dedup_single_scan_witness :
    (∀ op ∈ [ScanOp.botComplete "A" "X" 9 [("Y", 2)],
              ScanOp.botComplete "A" "Z" 1 [("Y", 2), ("X", 9)]],
       ∀ sid, op ≠ ScanOp.scanStart sid) ∧
    ((runModuleOps (ScanOp.scanStart "A" ::
        [ScanOp.botComplete "A" "X" 9 [("Y", 2)],
         ScanOp.botComplete "A" "Z" 1 [("Y", 2), ("X", 9)]])).2.map Prod.snd).Nodup := by
  have hrest : ∀ op ∈ [ScanOp.botComplete "A" "X" 9 [("Y", 2)],
      ScanOp.botComplete "A" "Z" 1 [("Y", 2), ("X", 9)]],
      ∀ sid, op ≠ ScanOp.scanStart sid := by
    intro op hop sid
    rcases List.mem_cons.mp hop with rfl | hop2
    · simp
    · rcases List.mem_cons.mp hop2 with rfl | hop3
      · simp
      · exact absurd hop3 (by simp)
  exact ⟨hrest, challenge_dedup_single_scan "A" _ hrest⟩

theorem popVariance_nonneg (l : List ℚ) : 0 ≤ popVariance l := by
  rw [popVariance]
  apply div_nonneg
  · apply List.sum_nonneg
    intro x hx
    rw [List.mem_map] at hx
    obtain ⟨a, -, rfl⟩ := hx
    positivity
  · exact_mod_cast Nat.zero_le _

theorem stdDevSq_nonneg (l : List ℚ) : 0 ≤ stdDevSq l := by
  rw [stdDevSq]
  split
  · exact le_refl 0
  · exact popVariance_nonneg l

theorem stdDev_lt_iff (l : List ℚ) (t : ℝ) (ht : 0 < t) :
    stdDev l < t ↔ ((stdDevSq l : ℚ) : ℝ) < t ^ 2 := by
  rw [stdDev, Real.sqrt_lt' ht]

theorem short_circuit_eq (env : AIEnv) (verdicts : List (String × ConvVerdict))
    (hclient : env.hasClient = true)
    (hcount : 3 ≤ (verdicts.filter (fun p => !decide (p.1 = "DevilsAdvocate"))).length)
    (hsigma : stdDev ((verdicts.filter (fun p => !decide (p.1 = "DevilsAdvocate"))).map
      (fun p => p.2.score)) < 1) :
    run_full_convergence env verdicts MAX_CONVERGENCE_ROUNDS CONVERGENCE_THRESHOLD =
      (some { critiques := []
              rounds := []
              final_scores := (verdicts.filter (fun p => !decide (p.1 = "DevilsAdvocate"))).map
                (fun p => (p.1, p.2.score))
              converged := true
              total_rounds := 0
              synthesis := "Agents already in consensus — no debate needed."
              averaged_score := some
                ((((verdicts.filter (fun p => !decide (p.1 = "DevilsAdvocate"))).map
                    (fun p => (p.1, p.2.score))).map Prod.snd).sum /
                  (((verdicts.filter (fun p => !decide (p.1 = "DevilsAdvocate"))).map
                    (fun p => (p.1, p.2.score))).length))
              moderator_verdict := none }, 0) := by
  have hvar : stdDevSq ((verdicts.filter (fun p => !decide (p.1 = "DevilsAdvocate"))).map
      (fun p => p.2.score)) < 1 := by
    have h1 := (stdDev_lt_iff _ 1 one_pos).mp hsigma
    have h2 : ((stdDevSq ((verdicts.filter (fun p => !decide (p.1 = "DevilsAdvocate"))).map
        (fun p => p.2.score)) : ℚ) : ℝ) < 1 := by
      simpa using h1
    exact_mod_cast h2
  have hne : ¬(((verdicts.filter (fun p => !decide (p.1 = "DevilsAdvocate"))).map
      (fun p => (p.1, p.2.score))).isEmpty = true) := by
    intro hemp
    rw [List.isEmpty_iff] at hemp
    have hlen := congrArg List.length hemp
    simp only [List.length_map, List.length_nil] at hlen
    omega
  rw [run_full_convergence, hclient]
  simp only [Bool.not_true, Bool.false_eq_true, if_false]
  rw [if_neg (by omega)]
  rw [if_pos ⟨by norm_num [CONVERGENCE_THRESHOLD],
    by rw [CONVERGENCE_THRESHOLD]; norm_num; exact hvar⟩]
  rw [if_neg hne]

/-- C6: with a configured client, at least 3 non-DevilsAdvocate verdicts, and
population standard deviation of their scores below the threshold 1.0,
`run_full_convergence` short-circuits: converged with 0 rounds, final scores
equal to the original scores, averaged score their mean, and 0 external calls. -/
theorem convergence_short_circuit (env : AIEnv) (verdicts : List (String × ConvVerdict))
    (hclient : env.hasClient = true)
    (hcount : 3 ≤ (verdicts.filter (fun p => !decide (p.1 = "DevilsAdvocate"))).length)
    (hsigma : stdDev ((verdicts.filter (fun p => !decide (p.1 = "DevilsAdvocate"))).map
      (fun p => p.2.score)) < 1) :
    run_full_convergence env verdicts MAX_CONVERGENCE_ROUNDS CONVERGENCE_THRESHOLD =
      (some { critiques := []
              rounds := []
              final_scores := (verdicts.filter (fun p => !decide (p.1 = "DevilsAdvocate"))).map
                (fun p => (p.1, p.2.score))
              converged := true
              total_rounds := 0
              synthesis := "Agents already in consensus — no debate needed."
              averaged_score := some
                ((((verdicts.filter (fun p => !decide (p.1 = "DevilsAdvocate"))).map
                    (fun p => (p.1, p.2.score))).map Prod.snd).sum /
                  (((verdicts.filter (fun p => !decide (p.1 = "DevilsAdvocate"))).map
                    (fun p => (p.1, p.2.score))).length))
              moderator_verdict := none }, 0) :=
  short_circuit_eq env verdicts hclient hcount hsigma

/-- C7: if every eligible agent critique call fails, the attack round is empty
and `run_full_convergence` aborts with `none` after exactly one failed call per
eligible agent, running no convergence rounds; the caller then leaves every
verdict unchanged. -/
theorem attack_round_empty_aborts (env : AIEnv) (verdicts : List (String × ConvVerdict))
    (maxRounds : ℕ)
    (hclient : env.hasClient = true)
    (hcount : 3 ≤ (verdicts.filter (fun p => !decide (p.1 = "DevilsAdvocate"))).length)
    (hsigma : ¬ stdDev ((verdicts.filter (fun p => !decide (p.1 = "DevilsAdvocate"))).map
      (fun p => p.2.score)) < 1)
    (hfail : ∀ p ∈ verdicts, p.1 ≠ "DevilsAdvocate" → env.critiqueResp p.1 = none) :
    (run_full_convergence env verdicts maxRounds CONVERGENCE_THRESHOLD).1 = none ∧
    (run_full_convergence env verdicts maxRounds CONVERGENCE_THRESHOLD).2 =
      (verdicts.filter (fun p => !decide (p.1 = "DevilsAdvocate"))).length ∧
    applyConvergedScores (run_full_convergence env verdicts maxRounds CONVERGENCE_THRESHOLD).1
      verdicts = verdicts := by
  have hvarge : ¬ stdDevSq ((verdicts.filter (fun p => !decide (p.1 = "DevilsAdvocate"))).map
      (fun p => p.2.score)) < 1 := by
    intro hcon
    apply hsigma
    rw [stdDev_lt_iff _ 1 one_pos]
    norm_num
    exact_mod_cast hcon
  have hatk : run_attack_round env verdicts =
      ([], (verdicts.filter (fun p => !decide (p.1 = "DevilsAdvocate"))).length) := by
    rw [run_attack_round, hclient]
    simp only [Bool.not_true, Bool.false_eq_true, if_false]
    congr 1
    rw [List.filterMap_eq_nil_iff]
    intro p hp
    rw [List.mem_filter] at hp
    obtain ⟨hpv, hpd⟩ := hp
    simp at hpd
    rw [generate_critique]
    rw [hfail p hpv hpd]
  have hrun : run_full_convergence env verdicts maxRounds CONVERGENCE_THRESHOLD =
      (none, (verdicts.filter (fun p => !decide (p.1 = "DevilsAdvocate"))).length) := by
    rw [run_full_convergence, hclient]
    simp only [Bool.not_true, Bool.false_eq_true, if_false]
    rw [if_neg (by omega)]
    rw [if_neg (by
      intro hcon
      exact hvarge (by
        have := hcon.2
        rw [CONVERGENCE_THRESHOLD] at this
        norm_num at this
        exact this))]
    rw [hatk]
    rfl
  rw [hrun]
  exact ⟨rfl, rfl, rfl⟩

/-- Witness for C6 on the 7.0/7.2/6.8 consensus input. -/
theorem convergence_short_circuit_witness :
    envNoop.hasClient = true ∧
    3 ≤ (shortCircuitVerdicts.filter (fun p => !decide (p.1 = "DevilsAdvocate"))).length ∧
    stdDev ((shortCircuitVerdicts.filter (fun p => !decide (p.1 = "DevilsAdvocate"))).map
      (fun p => p.2.score)) < 1 ∧
    run_full_convergence envNoop shortCircuitVerdicts MAX_CONVERGENCE_ROUNDS
      CONVERGENCE_THRESHOLD =
      (some { critiques := [], rounds := [],
              final_scores := [("TechnicianBot", 7), ("SecurityBot", 36/5),
                ("TokenomicsBot", 34/5)],
              converged := true, total_rounds := 0,
              synthesis := "Agents already in consensus — no debate needed.",
              averaged_score := some 7, moderator_verdict := none }, 0) := by
  have hfilter : shortCircuitVerdicts.filter (fun p => !decide (p.1 = "DevilsAdvocate")) =
      shortCircuitVerdicts := by
    simp [shortCircuitVerdicts]
  have hvar : stdDevSq (shortCircuitVerdicts.map (fun p => p.2.score)) = 2/75 := by
    norm_num [shortCircuitVerdicts, stdDevSq, popVariance]
  have hsigma : stdDev ((shortCircuitVerdicts.filter
      (fun p => !decide (p.1 = "DevilsAdvocate"))).map (fun p => p.2.score)) < 1 := by
    rw [stdDev_lt_iff _ 1 one_pos, hfilter, hvar]
    push_cast
    norm_num
  have hcount : 3 ≤ (shortCircuitVerdicts.filter
      (fun p => !decide (p.1 = "DevilsAdvocate"))).length := by
    rw [hfilter]
    norm_num [shortCircuitVerdicts]
  have h := convergence_short_circuit envNoop shortCircuitVerdicts rfl hcount hsigma
  refine ⟨rfl, hcount, hsigma, ?_⟩
  rw [h]
  rw [hfilter]
  norm_num [shortCircuitVerdicts]

/-- Witness for C7 on the 1/5/9 verdict map with an all-failing client. -/
theorem attack_round_empty_aborts_witness :
    envNoop.hasClient = true ∧
    3 ≤ (deadlockVerdicts.filter (fun p => !decide (p.1 = "DevilsAdvocate"))).length ∧
    (¬ stdDev ((deadlockVerdicts.filter (fun p => !decide (p.1 = "DevilsAdvocate"))).map
      (fun p => p.2.score)) < 1) ∧
    (∀ p ∈ deadlockVerdicts, p.1 ≠ "DevilsAdvocate" → envNoop.critiqueResp p.1 = none) ∧
    (run_full_convergence envNoop deadlockVerdicts MAX_CONVERGENCE_ROUNDS
      CONVERGENCE_THRESHOLD).1 = none ∧
    (run_full_convergence envNoop deadlockVerdicts MAX_CONVERGENCE_ROUNDS
      CONVERGENCE_THRESHOLD).2 = 3 ∧
    applyConvergedScores (run_full_convergence envNoop deadlockVerdicts
      MAX_CONVERGENCE_ROUNDS CONVERGENCE_THRESHOLD).1 deadlockVerdicts = deadlockVerdicts := by
  have hfilter : deadlockVerdicts.filter (fun p => !decide (p.1 = "DevilsAdvocate")) =
      deadlockVerdicts := by
    simp [deadlockVerdicts]
  have hvar : stdDevSq (deadlockVerdicts.map (fun p => p.2.score)) = 32/3 := by
    norm_num [deadlockVerdicts, stdDevSq, popVariance]
  have hsigma : ¬ stdDev ((deadlockVerdicts.filter
      (fun p => !decide (p.1 = "DevilsAdvocate"))).map (fun p => p.2.score)) < 1 := by
    rw [stdDev_lt_iff _ 1 one_pos, hfilter, hvar]
    push_cast
    norm_num
  have hcount : 3 ≤ (deadlockVerdicts.filter
      (fun p => !decide (p.1 = "DevilsAdvocate"))).length := by
    rw [hfilter]
    norm_num [deadlockVerdicts]
  have hfail : ∀ p ∈ deadlockVerdicts, p.1 ≠ "DevilsAdvocate" →
      envNoop.critiqueResp p.1 = none := by
    intro p hp hd
    rfl
  have h := attack_round_empty_aborts envNoop deadlockVerdicts MAX_CONVERGENCE_ROUNDS rfl
    hcount hsigma hfail
  refine ⟨rfl, hcount, hsigma, hfail, h.1, ?_, h.2.2⟩
  rw [h.2.1, hfilter]
  norm_num [deadlockVerdicts]

theorem clamp_bounds (z : ℚ) : 0 ≤ max 0 (min 10 z) ∧ max 0 (min 10 z) ≤ 10 :=
  ⟨le_max_left 0 _, max_le (by norm_num) (min_le_left _ _)⟩

theorem mean_bounds (l : List ℚ) (hne : l ≠ []) (h : ∀ x ∈ l, 0 ≤ x ∧ x ≤ 10) :
    0 ≤ l.sum / l.length ∧ l.sum / l.length ≤ 10 := by
  have hlen : 0 < (l.length : ℚ) := by
    have : 0 < l.length := List.length_pos.mpr hne
    exact_mod_cast this
  constructor
  · apply div_nonneg
    · exact List.sum_nonneg (fun x hx => (h x hx).1)
    · exact le_of_lt hlen
  · rw [div_le_iff₀ hlen]
    have := List.sum_le_card_nsmul l 10 (fun x hx => (h x hx).2)
    rw [nsmul_eq_mul] at this
    linarith

theorem lookupStr_bounds (cur : List (String × ℚ)) (k : String) (x : ℚ)
    (hcur : ∀ p ∈ cur, 0 ≤ p.2 ∧ p.2 ≤ 10) (hfound : lookupStr cur k = some x) :
    0 ≤ x ∧ x ≤ 10 := by
  rw [lookupStr] at hfound
  cases hf : cur.find? (fun p => decide (p.1 = k)) with
  | none =>
    rw [hf] at hfound
    simp at hfound
  | some q =>
    rw [hf] at hfound
    simp only [Option.map_some', Option.some.injEq] at hfound
    subst hfound
    exact hcur q (List.mem_of_find?_eq_some hf)

theorem gsu_bounds (env : AIEnv) (rn : ℕ) (a : String) (cur : ℚ)
    (cr : List (String × String)) (u : ScoreUpdate)
    (hcur : 0 ≤ cur ∧ cur ≤ 10)
    (hu : (generate_score_update env rn a cur cr).1 = some u) :
    0 ≤ u.updated_score ∧ u.updated_score ≤ 10 := by
  rw [generate_score_update] at hu
  split at hu
  · simp only [Option.some_inj] at hu
    subst hu
    exact hcur
  · cases hresp : env.updateResp rn a with
    | none =>
      rw [hresp] at hu
      simp at hu
    | some r =>
      rw [hresp] at hu
      simp only [Option.some_inj] at hu
      subst hu
      exact clamp_bounds _

theorem round_bounds (env : AIEnv) (verdicts : List (String × ConvVerdict))
    (cur : List (String × ℚ)) (critiques : List AgentCritique) (rn : ℕ)
    (round : ConvergenceRound)
    (hin : ∀ p ∈ verdicts, 0 ≤ p.2.score ∧ p.2.score ≤ 10)
    (hcur : ∀ p ∈ cur, 0 ≤ p.2 ∧ p.2 ≤ 10)
    (hround : (run_convergence_round env verdicts cur critiques rn).1 = some round) :
    ∀ u ∈ round.updates, 0 ≤ u.updated_score ∧ u.updated_score ≤ 10 := by
  rw [run_convergence_round] at hround
  split at hround
  · exact absurd hround (by simp)
  · simp only [Option.some_inj] at hround
    subst hround
    intro u hu
    dsimp only at hu
    simp only [List.mem_map] at hu
    obtain ⟨pr, hpr, rfl⟩ := hu
    obtain ⟨p, hp, rfl⟩ := hpr
    have hpmem : p ∈ verdicts := List.mem_of_mem_filter hp
    have hscore : 0 ≤ (lookupStr cur p.1).getD p.2.score ∧
        (lookupStr cur p.1).getD p.2.score ≤ 10 := by
      cases hl : lookupStr cur p.1 with
      | none => simpa using hin p hpmem
      | some x => simpa using lookupStr_bounds cur p.1 x hcur hl
    cases hg : (generate_score_update env rn p.1 ((lookupStr cur p.1).getD p.2.score)
        (critiquesFor critiques p.1)).1 with
    | none =>
      simp only [hg]
      exact hscore
    | some u2 =>
      simp only [hg]
      exact gsu_bounds env rn p.1 _ _ u2 hscore hg

theorem setKey_bounds (l : List (String × ℚ)) (k : String) (x : ℚ)
    (hl : ∀ p ∈ l, 0 ≤ p.2 ∧ p.2 ≤ 10) (hx : 0 ≤ x ∧ x ≤ 10) :
    ∀ p ∈ setKey l k x, 0 ≤ p.2 ∧ p.2 ≤ 10 := by
  intro p hp
  rw [setKey] at hp
  split at hp
  · rw [List.mem_map] at hp
    obtain ⟨q, hq, rfl⟩ := hp
    split
    · exact hx
    · exact hl q hq
  · rcases List.mem_append.mp hp with hp2 | hp2
    · exact hl p hp2
    · rw [List.mem_singleton] at hp2
      subst hp2
      exact hx

theorem applyUpdates_bounds (updates : List ScoreUpdate) :
    ∀ (cur : List (String × ℚ)),
      (∀ p ∈ cur, 0 ≤ p.2 ∧ p.2 ≤ 10) →
      (∀ u ∈ updates, 0 ≤ u.updated_score ∧ u.updated_score ≤ 10) →
      ∀ p ∈ applyUpdates cur updates, 0 ≤ p.2 ∧ p.2 ≤ 10 := by
  induction updates with
  | nil =>
    intro cur hcur _
    exact hcur
  | cons u rest ih =>
    intro cur hcur hupd
    rw [applyUpdates, List.foldl_cons]
    have h1 := setKey_bounds cur u.agent_name u.updated_score hcur
      (hupd u (List.mem_cons_self _ _))
    exact ih (setKey cur u.agent_name u.updated_score) h1
      (fun v hv => hupd v (List.mem_cons_of_mem _ hv))

theorem convLoop_bounds (env : AIEnv) (verdicts : List (String × ConvVerdict))
    (critiques : List AgentCritique)
    (hin : ∀ p ∈ verdicts, 0 ≤ p.2.score ∧ p.2.score ≤ 10) :
    ∀ (fuel rn : ℕ) (cur : List (String × ℚ)),
      (∀ p ∈ cur, 0 ≤ p.2 ∧ p.2 ≤ 10) →
      ((∀ round ∈ (convLoop env verdicts critiques fuel rn cur).1,
          ∀ u ∈ round.updates, 0 ≤ u.updated_score ∧ u.updated_score ≤ 10) ∧
       (∀ p ∈ (convLoop env verdicts critiques fuel rn cur).2.1,
          0 ≤ p.2 ∧ p.2 ≤ 10)) := by
  intro fuel
  induction fuel with
  | zero =>
    intro rn cur hcur
    rw [convLoop]
    exact ⟨by simp, hcur⟩
  | succ n ih =>
    intro rn cur hcur
    rw [convLoop]
    cases hr : (run_convergence_round env verdicts cur critiques rn).1 with
    | none =>
      exact ⟨by simp, hcur⟩
    | some round =>
      have hupd := round_bounds env verdicts cur critiques rn round hin hcur hr
      have hcur2 := applyUpdates_bounds round.updates cur hcur hupd
      by_cases hc : round.converged
      · simp only [hc, if_true]
        constructor
        · intro rd hrd
          rw [List.mem_singleton] at hrd
          subst hrd
          exact hupd
        · exact hcur2
      · simp only [hc, Bool.false_eq_true, if_false]
        have hrest := ih (rn + 1) (applyUpdates cur round.updates) hcur2
        constructor
        · intro rd hrd
          rcases List.mem_cons.mp hrd with rfl | hrd2
          · exact hupd
          · exact hrest.1 rd hrd2
        · exact hrest.2

theorem avgFallback_bounds (fb : List (String × ℚ))
    (hfb : ∀ p ∈ fb, 0 ≤ p.2 ∧ p.2 ≤ 10) :
    0 ≤ (if fb.isEmpty then (0:ℚ) else (fb.map Prod.snd).sum / fb.length) ∧
    (if fb.isEmpty then (0:ℚ) else (fb.map Prod.snd).sum / fb.length) ≤ 10 := by
  split
  · norm_num
  · rename_i hne
    have hne2 : fb ≠ [] := by
      intro hcon
      subst hcon
      exact hne rfl
    have hlist : ∀ x ∈ fb.map Prod.snd, 0 ≤ x ∧ x ≤ 10 := by
      intro x hx
      rw [List.mem_map] at hx
      obtain ⟨q, hq, rfl⟩ := hx
      exact hfb q hq
    have hmb := mean_bounds (fb.map Prod.snd) (by
      intro hcon
      rw [List.map_eq_nil_iff] at hcon
      exact hne2 hcon) hlist
    rw [List.length_map] at hmb
    exact hmb

theorem moderator_bounds (env : AIEnv) (verdicts : List (String × ConvVerdict))
    (rounds : List ConvergenceRound)
    (hin : ∀ p ∈ verdicts, 0 ≤ p.2.score ∧ p.2.score ≤ 10)
    (hrounds : ∀ round ∈ rounds, ∀ u ∈ round.updates,
      0 ≤ u.updated_score ∧ u.updated_score ≤ 10) :
    0 ≤ (generate_moderator_verdict env verdicts rounds).1.final_score ∧
    (generate_moderator_verdict env verdicts rounds).1.final_score ≤ 10 := by
  have hbase : ∀ p ∈ (verdicts.filter (fun p => !decide (p.1 = "DevilsAdvocate"))).map
      (fun p => (p.1, p.2.score)), 0 ≤ p.2 ∧ p.2 ≤ 10 := by
    intro p hp
    rw [List.mem_map] at hp
    obtain ⟨q, hq, rfl⟩ := hp
    exact hin q (List.mem_of_mem_filter hq)
  rw [generate_moderator_verdict]
  cases hlast : rounds.getLast? with
  | none =>
    simp only [hlast]
    cases hm : env.moderatorResp with
    | none =>
      exact avgFallback_bounds _ hbase
    | some r =>
      exact clamp_bounds _
  | some r =>
    have hrmem : r ∈ rounds := by
      obtain ⟨hne, heq⟩ := List.mem_getLast?_eq_getLast (Option.mem_def.mpr hlast)
      rw [heq]
      exact List.getLast_mem hne
    have hfb := applyUpdates_bounds r.updates _ hbase (hrounds r hrmem)
    simp only [hlast]
    cases hm : env.moderatorResp with
    | none =>
      exact avgFallback_bounds _ hfb
    | some q =>
      exact clamp_bounds _


theorem avgOpt_bounds (fb : List (String × ℚ))
    (hfb : ∀ p ∈ fb, 0 ≤ p.2 ∧ p.2 ≤ 10) (a : ℚ)
    (ha : (if fb.isEmpty then none
           else some ((fb.map Prod.snd).sum / fb.length)) = some a) :
    0 ≤ a ∧ a ≤ 10 := by
  split at ha
  · exact absurd ha (by simp)
  · rename_i hne
    rw [Option.some_inj] at ha
    subst ha
    have h := avgFallback_bounds fb hfb
    rw [if_neg hne] at h
    exact h

/-- C10: for every convergence run on input scores in [0, 10] that returns a
result, every score the engine produces stays in [0, 10]: all final per-agent
scores, every `ScoreUpdate.updated_score` of every round, the averaged score
when present, and the moderator verdict's final score when present. -/
theorem convergence_scores_bounded (env : AIEnv) (verdicts : List (String × ConvVerdict))
    (maxRounds : ℕ) (threshold : ℚ) (r : ConvergenceResult) (calls : ℕ)
    (hin : ∀ p ∈ verdicts, 0 ≤ p.2.score ∧ p.2.score ≤ 10)
    (hres : run_full_convergence env verdicts maxRounds threshold = (some r, calls)) :
    (∀ p ∈ r.final_scores, 0 ≤ p.2 ∧ p.2 ≤ 10) ∧
    (∀ round ∈ r.rounds, ∀ u ∈ round.updates,
      0 ≤ u.updated_score ∧ u.updated_score ≤ 10) ∧
    (∀ a, r.averaged_score = some a → 0 ≤ a ∧ a ≤ 10) ∧
    (∀ m, r.moderator_verdict = some m →
      0 ≤ m.final_score ∧ m.final_score ≤ 10) := by
  have hbase : ∀ p ∈ (verdicts.filter (fun p => !decide (p.1 = "DevilsAdvocate"))).map
      (fun p => (p.1, p.2.score)), 0 ≤ p.2 ∧ p.2 ≤ 10 := by
    intro p hp
    rw [List.mem_map] at hp
    obtain ⟨q, hq, rfl⟩ := hp
    exact hin q (List.mem_of_mem_filter hq)
  have hloop := convLoop_bounds env verdicts
    (run_attack_round env verdicts).1 hin maxRounds 1
    ((verdicts.filter (fun p => !decide (p.1 = "DevilsAdvocate"))).map
      (fun p => (p.1, p.2.score))) hbase
  simp only [run_full_convergence] at hres
  split at hres
  · exact absurd hres (by simp)
  split at hres
  · exact absurd hres (by simp)
  split at hres
  · simp only [Prod.mk.injEq, Option.some.injEq] at hres
    obtain ⟨rfl, rfl⟩ := hres
    refine ⟨hbase, ?_, ?_, ?_⟩
    · intro rd hrd
      exact absurd hrd (List.not_mem_nil rd)
    · exact fun a ha => avgOpt_bounds _ hbase a ha
    · intro m hm
      exact Option.noConfusion hm
  split at hres
  · exact absurd hres (by simp)
  split at hres
  · simp only [Prod.mk.injEq, Option.some.injEq] at hres
    obtain ⟨rfl, rfl⟩ := hres
    refine ⟨hloop.2, hloop.1, ?_, ?_⟩
    · exact fun a ha => avgOpt_bounds _ hloop.2 a ha
    · intro m hm
      exact Option.noConfusion hm
  · simp only [Prod.mk.injEq, Option.some.injEq] at hres
    obtain ⟨rfl, rfl⟩ := hres
    refine ⟨hloop.2, hloop.1, ?_, ?_⟩
    · intro a ha
      exact Option.noConfusion ha
    · intro m hm
      rw [Option.some_inj] at hm
      subst hm
      exact moderator_bounds env verdicts _ hin hloop.1

/-- Witness for C10 on the consensus short-circuit input. -/
theorem convergence_scores_bounded_witness :
    (∀ p ∈ shortCircuitVerdicts, 0 ≤ p.2.score ∧ p.2.score ≤ 10) ∧
    (∀ p ∈ [("TechnicianBot", (7:ℚ)), ("SecurityBot", 36/5), ("TokenomicsBot", 34/5)],
      0 ≤ p.2 ∧ p.2 ≤ 10) ∧
    (∀ a : ℚ, some (7:ℚ) = some a → 0 ≤ a ∧ a ≤ 10) := by
  have hin : ∀ p ∈ shortCircuitVerdicts, 0 ≤ p.2.score ∧ p.2.score ≤ 10 := by
    intro p hp
    simp only [shortCircuitVerdicts, List.mem_cons, List.not_mem_nil, or_false] at hp
    rcases hp with rfl | rfl | rfl <;> norm_num
  have hfilter : shortCircuitVerdicts.filter (fun p => !decide (p.1 = "DevilsAdvocate")) =
      shortCircuitVerdicts := by
    simp [shortCircuitVerdicts]
  have hvar : stdDevSq (shortCircuitVerdicts.map (fun p => p.2.score)) = 2/75 := by
    norm_num [shortCircuitVerdicts, stdDevSq, popVariance]
  have hsigma : stdDev ((shortCircuitVerdicts.filter
      (fun p => !decide (p.1 = "DevilsAdvocate"))).map (fun p => p.2.score)) < 1 := by
    rw [stdDev_lt_iff _ 1 one_pos, hfilter, hvar]
    push_cast
    norm_num
  have hcount : 3 ≤ (shortCircuitVerdicts.filter
      (fun p => !decide (p.1 = "DevilsAdvocate"))).length := by
    rw [hfilter]
    norm_num [shortCircuitVerdicts]
  have hres : run_full_convergence envNoop shortCircuitVerdicts MAX_CONVERGENCE_ROUNDS
      CONVERGENCE_THRESHOLD =
      (some { critiques := [], rounds := [],
              final_scores := [("TechnicianBot", 7), ("SecurityBot", 36/5),
                ("TokenomicsBot", 34/5)],
              converged := true, total_rounds := 0,
              synthesis := "Agents already in consensus — no debate needed.",
              averaged_score := some 7, moderator_verdict := none }, 0) := by
    rw [short_circuit_eq envNoop shortCircuitVerdicts rfl hcount hsigma, hfilter]
    norm_num [shortCircuitVerdicts]
  have h := convergence_scores_bounded envNoop shortCircuitVerdicts MAX_CONVERGENCE_ROUNDS
    CONVERGENCE_THRESHOLD _ 0 hin hres
  exact ⟨hin, h.1, fun a ha => h.2.2.1 a ha⟩


end VerdictSwarm
